import Mathlib

/-!
Verification development for the oil-well PDF extraction pipeline
(`pdf_parse.py`, `data.preprocessing.py`).  The Python functions are
shallowly embedded as executable Lean definitions over `List Char` /
`String`; Python `None` becomes `Option.none`, raised exceptions become
`Except.error` / `Option.none`, and IEEE floats are idealised as `ℚ`
(all arithmetic performed by the program on the values of interest is
exact decimal arithmetic).  Only ASCII whitespace and digits are
modelled for the `\s` / `\d` regex classes; every concrete input used
below is ASCII.
-/

/-! ## Basic character and string utilities (Python semantics) -/

/-- Python `\s` for ASCII text: the whitespace characters recognised by
`str.strip` and the `re` module. -/
def isSpaceB (c : Char) : Bool :=
  c == ' ' || c == '\t' || c == '\n' || c == '\r' || c == '\x0b' || c == '\x0c'

/-- Python `\d` (ASCII). -/
def isDigitB (c : Char) : Bool := c.isDigit

/-- Python `\w` (ASCII): letters, digits and underscore. -/
def isWordB (c : Char) : Bool := c.isAlpha || c.isDigit || c == '_'

/-- Python `str.strip()` on a character list. -/
def pyStrip (cs : List Char) : List Char :=
  (((cs.dropWhile isSpaceB).reverse).dropWhile isSpaceB).reverse

/-- Python `str.strip()` on strings. -/
def pyStripStr (s : String) : String := ⟨pyStrip s.data⟩

/-- Python `str.upper()` (ASCII). -/
def pyUpperL (cs : List Char) : List Char := cs.map Char.toUpper

def pyUpperStr (s : String) : String := ⟨pyUpperL s.data⟩

/-- `hay` starts with `pre` (case sensitive). -/
def startsWithL : List Char → List Char → Bool
  | _, [] => true
  | [], _ :: _ => false
  | h :: hs, p :: ps => (h == p) && startsWithL hs ps

/-- `hay` starts with `pre`, ASCII case-insensitively. -/
def startsWithCIL : List Char → List Char → Bool
  | _, [] => true
  | [], _ :: _ => false
  | h :: hs, p :: ps => (h.toLower == p.toLower) && startsWithL' hs ps
where startsWithL' : List Char → List Char → Bool
  | _, [] => true
  | [], _ :: _ => false
  | h :: hs, p :: ps => (h.toLower == p.toLower) && startsWithL' hs ps

/-- Python `needle in hay` substring test. -/
def pyIn (needle : List Char) : List Char → Bool
  | [] => needle.isEmpty
  | c :: t => startsWithL (c :: t) needle || pyIn needle t

/-- Python `str.splitlines()` (the `\n`, `\r`, `\r\n` terminators). -/
def splitlinesAux (cur : List Char) : List Char → List (List Char)
  | [] => if cur.isEmpty then [] else [cur.reverse]
  | '\r' :: '\n' :: rest => cur.reverse :: splitlinesAux [] rest
  | '\n' :: rest => cur.reverse :: splitlinesAux [] rest
  | '\r' :: rest => cur.reverse :: splitlinesAux [] rest
  | c :: rest => splitlinesAux (c :: cur) rest

def pySplitlines (cs : List Char) : List (List Char) := splitlinesAux [] cs

/-- Python `str.split(',')`. -/
def splitCommaAux (cur : List Char) : List Char → List (List Char)
  | [] => [cur.reverse]
  | ',' :: rest => cur.reverse :: splitCommaAux [] rest
  | c :: rest => splitCommaAux (c :: cur) rest

def pySplitComma (cs : List Char) : List (List Char) := splitCommaAux [] cs

/-- `"\n".join` on character lists. -/
def joinNL : List (List Char) → List Char
  | [] => []
  | [l] => l
  | l :: rest => l ++ '\n' :: joinNL rest

/-- Numeric value of a digit string (most significant first), as computed by
Python `int`/`float` on an all-digit token. -/
def natOfDigits : List Char → Nat
  | [] => 0
  | c :: t => (c.toNat - 48) * 10 ^ t.length + natOfDigits t

/-- Python `float()` restricted to the tokens this program feeds it: strings
of digits with at most one dot (the shape produced by the `[\d\.]+` and
`\d{1,2}(?:[.,]\d+)?` captures, after comma replacement).  `none` models a
raised `ValueError`. -/
def pyFloat (cs : List Char) : Option ℚ :=
  match cs.dropWhile isDigitB with
  | [] =>
    if (cs.takeWhile isDigitB).isEmpty then none
    else some (natOfDigits (cs.takeWhile isDigitB))
  | '.' :: rest2 =>
    if (rest2.dropWhile isDigitB).isEmpty then
      if (cs.takeWhile isDigitB).isEmpty && (rest2.takeWhile isDigitB).isEmpty then none
      else some ((natOfDigits (cs.takeWhile isDigitB) : ℚ) +
        (natOfDigits (rest2.takeWhile isDigitB) : ℚ) / 10 ^ (rest2.takeWhile isDigitB).length)
    else none
  | _ => none

/-- Zero-padded decimal rendering of width `w`. -/
def padL (n w : Nat) : List Char :=
  let ds := (Nat.toDigits 10 n)
  List.replicate (w - ds.length) '0' ++ ds

/-- `datetime.strftime("%Y-%m-%d")`. -/
def fmtYMD (y m d : Nat) : String :=
  ⟨padL y 4 ++ '-' :: padL m 2 ++ '-' :: padL d 2⟩

def isLeapYear (y : Nat) : Bool :=
  y % 4 == 0 && (y % 100 != 0 || y % 400 == 0)

def daysInMonth (y m : Nat) : Nat :=
  if m == 2 then (if isLeapYear y then 29 else 28)
  else if m == 4 || m == 6 || m == 9 || m == 11 then 30
  else 31

/-- `datetime.strptime(s, "%m/%d/%Y")`, returning `(year, month, day)`;
`none` models the raised `ValueError`.  The callers only pass strings of
shape `\d{2}/\d{2}/\d{4}`; strptime validates the calendar date. -/
def pyStrptimeMDY (cs : List Char) : Option (Nat × Nat × Nat) :=
  let mTok := cs.takeWhile isDigitB
  let rest1 := cs.dropWhile isDigitB
  match rest1 with
  | '/' :: rest2 =>
    let dTok := rest2.takeWhile isDigitB
    let rest3 := rest2.dropWhile isDigitB
    match rest3 with
    | '/' :: rest4 =>
      let yTok := rest4.takeWhile isDigitB
      let rest5 := rest4.dropWhile isDigitB
      if rest5.isEmpty && !mTok.isEmpty && !dTok.isEmpty && yTok.length == 4 then
        let m := natOfDigits mTok
        let d := natOfDigits dTok
        let y := natOfDigits yTok
        if 1 ≤ m && m ≤ 12 && 1 ≤ d && d ≤ daysInMonth y m && 1 ≤ y then
          some (y, m, d)
        else none
      else none
    | _ => none
  | _ => none

/-! ## A small backtracking regex engine with Python `re` semantics

Patterns are terms of `RE`; `reMat` is a continuation-passing backtracking
matcher.  Alternation prefers its left branch, `rep` is a greedy or lazy
star (with Python's no-progress cutoff for empty iterations), `look` is a
zero-width lookahead, and `group` records capture spans (a later capture of
the same index shadows an earlier one, as in Python).  `fuel` only bounds
the recursion depth; it is chosen large enough that it is never exhausted
on the inputs evaluated here, and all universal theorems below only use the
success direction of the matcher. -/

inductive RE where
  | eps
  | cls (p : Char → Bool)
  | seq (a b : RE)
  | alt (a b : RE)
  | rep (a : RE) (lazy : Bool)
  | group (n : Nat) (a : RE)
  | look (a : RE)

/-- Capture list: `(groupIndex, start, stop)` spans, most recent first. -/
abbrev Caps := List (Nat × Nat × Nat)

def reMat (s : List Char) : Nat → RE → Nat → Caps → (Nat → Caps → Option Caps) → Option Caps
  | 0, _, _, _, _ => none
  | _ + 1, .eps, i, caps, k => k i caps
  | _ + 1, .cls p, i, caps, k =>
    match s.drop i with
    | [] => none
    | c :: _ => if p c then k (i + 1) caps else none
  | fuel + 1, .seq a b, i, caps, k =>
    reMat s fuel a i caps (fun j cs => reMat s fuel b j cs k)
  | fuel + 1, .alt a b, i, caps, k =>
    match reMat s fuel a i caps k with
    | some r => some r
    | none => reMat s fuel b i caps k
  | fuel + 1, .rep a lz, i, caps, k =>
    if lz then
      match k i caps with
      | some r => some r
      | none => reMat s fuel a i caps
          (fun j cs => if i < j then reMat s fuel (.rep a lz) j cs k else none)
    else
      match reMat s fuel a i caps
          (fun j cs => if i < j then reMat s fuel (.rep a lz) j cs k else none) with
      | some r => some r
      | none => k i caps
  | fuel + 1, .group n a, i, caps, k =>
    reMat s fuel a i caps (fun j cs => k j ((n, i, j) :: cs))
  | fuel + 1, .look a, i, caps, k =>
    match reMat s fuel a i caps (fun _ cs => some cs) with
    | some cs => k i cs
    | none => none

/-- `re.match`: anchored at position 0, prefix match. -/
def reMatch (re : RE) (cs : List Char) : Option Caps :=
  reMat cs (cs.length + 600) re 0 [] (fun _ caps => some caps)

def reSearchAux (re : RE) (cs : List Char) : List Nat → Option Caps
  | [] => none
  | i :: rest =>
    match reMat cs (cs.length + 600) re i [] (fun _ caps => some caps) with
    | some r => some r
    | none => reSearchAux re cs rest

/-- `re.search`: leftmost match over all start positions. -/
def reSearch (re : RE) (cs : List Char) : Option Caps :=
  reSearchAux re cs (List.range (cs.length + 1))

/-- `m.group(n)` span: the most recently recorded span for `n`. -/
def capLookup (caps : Caps) (n : Nat) : Option (Nat × Nat) :=
  match caps with
  | [] => none
  | (m, a, b) :: rest => if m == n then some (a, b) else capLookup rest n

/-- `m.group(n)` text (empty list when the group is absent; all groups used
below always participate in a successful match). -/
def groupL (s : List Char) (caps : Caps) (n : Nat) : List Char :=
  match capLookup caps n with
  | some (a, b) => (s.drop a).take (b - a)
  | none => []

/-! Pattern combinators mirroring the regex syntax. -/

def RE.chr (c : Char) : RE := .cls (fun d => d == c)

def RE.chrCI (c : Char) : RE := .cls (fun d => d.toLower == c.toLower)

def RE.cat (l : List RE) : RE := l.foldr .seq .eps

def RE.strLit (t : String) : RE := .cat (t.data.map RE.chr)

def RE.strCI (t : String) : RE := .cat (t.data.map RE.chrCI)

def RE.opt (a : RE) : RE := .alt a .eps

def RE.plus (a : RE) : RE := .seq a (.rep a false)

def RE.plusLazy (a : RE) : RE := .seq a (.rep a true)

def RE.d : RE := .cls isDigitB

def RE.w : RE := .cls isWordB

def RE.wsStar : RE := .rep (.cls isSpaceB) false

def RE.wsPlus : RE := .seq (.cls isSpaceB) RE.wsStar

/-- `.` without DOTALL: any character but a newline. -/
def RE.dot : RE := .cls (fun c => c != '\n')

/-! ## Stimulation parsing (`parse_stimulation_data_doc1/doc2`, merge, main) -/

/-- `[|I]`. -/
def pipeI (c : Char) : Bool := c == '|' || c == 'I'

/-- Doc-1 date line: the regex at `pdf_parse.py:246`,
`(\d{2}/\d{2}/\d{4})\s+(.+?)(?=\s+\d{4,})\s+(\d+)\s+(\d+)\s+(\d+)\s*[|I]\s+(\d+)\s+(\w+)`. -/
def doc1DateRe : RE := .cat [
  .group 1 (.cat [.d, .d, .chr '/', .d, .d, .chr '/', .d, .d, .d, .d]),
  .wsPlus,
  .group 2 (.plusLazy .dot),
  .look (.cat [.wsPlus, .d, .d, .d, .d, .rep .d false]),
  .wsPlus, .group 3 (.plus .d),
  .wsPlus, .group 4 (.plus .d),
  .wsPlus, .group 5 (.plus .d),
  .wsStar, .cls pipeI,
  .wsPlus, .group 6 (.plus .d),
  .wsPlus, .group 7 (.plus .w)]

/-- Doc-2 date line: the regex at `pdf_parse.py:310`,
`(\d{2}/\d{2}/\d{4})\s+(.+?)\s+(\d+)\s+(\d+)(?:\s*[|I]\s*|\s+)(\d+)\s+(\d+)\s+(\w+)`. -/
def doc2DateRe : RE := .cat [
  .group 1 (.cat [.d, .d, .chr '/', .d, .d, .chr '/', .d, .d, .d, .d]),
  .wsPlus,
  .group 2 (.plusLazy .dot),
  .wsPlus, .group 3 (.plus .d),
  .wsPlus, .group 4 (.plus .d),
  .alt (.cat [.wsStar, .cls pipeI, .wsStar]) .wsPlus,
  .group 5 (.plus .d),
  .wsPlus, .group 6 (.plus .d),
  .wsPlus, .group 7 (.plus .w)]

/-- Treatment line regex (identical in both parsers, `pdf_parse.py:265/329`):
`(.+?)\s+(\d+)\s+(\d+)\s+([\d.]+)`. -/
def treatRe : RE := .cat [
  .group 1 (.plusLazy .dot),
  .wsPlus, .group 2 (.plus .d),
  .wsPlus, .group 3 (.plus .d),
  .wsPlus, .group 4 (.plus (.cls (fun c => isDigitB c || c == '.')))]

/-- The stimulation record dictionary of both parsers; every value is a
Python string or `None`. -/
structure StimData where
  date_stimulated : Option String := none
  stimulated_formation : Option String := none
  type_treatment : Option String := none
  top_depth : Option String := none
  bottom_depth : Option String := none
  stimulation_stages : Option String := none
  volume : Option String := none
  volume_units : Option String := none
  acid_percent : Option String := none
  lbs_proppant : Option String := none
  max_treatment_pressure : Option String := none
  max_treatment_rate : Option String := none
  proppant_details : Option String := none
deriving DecidableEq

/-- The date-line branch of either parser: `re.match` the given regex on the
stripped next line; on success set the seven date/formation/depth/volume
fields (the date via `strptime`/`strftime`, `None` on parse failure). -/
def applyDateLine (re : RE) (next : List Char) (d : StimData) : StimData :=
  let ns := pyStrip next
  match reMatch re ns with
  | none => d
  | some caps =>
    let g := fun n => pyStrip (groupL ns caps n)
    { d with
      date_stimulated :=
        match pyStrptimeMDY (g 1) with
        | some (y, m, dd) => some (fmtYMD y m dd)
        | none => none,
      stimulated_formation := some ⟨g 2⟩,
      top_depth := some ⟨g 3⟩,
      bottom_depth := some ⟨g 4⟩,
      stimulation_stages := some ⟨g 5⟩,
      volume := some ⟨g 6⟩,
      volume_units := some ⟨g 7⟩ }

/-- The treatment-line branch (identical source lines in both parsers). -/
def applyTreatLine (next : List Char) (d : StimData) : StimData :=
  let ns := pyStrip next
  match reMatch treatRe ns with
  | none => d
  | some caps =>
    let g := fun n => pyStrip (groupL ns caps n)
    { d with
      type_treatment := some ⟨g 1⟩,
      lbs_proppant := some ⟨g 2⟩,
      max_treatment_pressure := some ⟨g 3⟩,
      max_treatment_rate := some ⟨g 4⟩ }

def dateAnchorL : List Char := "Date Stimulated".data

def treatAnchorL : List Char := "Type Treatment".data

def detailsAnchorL : List Char := "Details".data

/-- The details scan: strip following lines until a blank line or a line
starting with either anchor. -/
def detailsCollect : List (List Char) → List (List Char)
  | [] => []
  | l :: rest =>
    let ls := pyStrip l
    if ls.isEmpty || startsWithL ls dateAnchorL || startsWithL ls treatAnchorL then []
    else ls :: detailsCollect rest

/-- The `Date Stimulated` anchor check of the loop body: when the stripped
current line contains the anchor and a next line exists, run the date-line
branch on it. -/
def stimDateStep (re : RE) (l : List Char) (rest : List (List Char)) (d : StimData) :
    StimData :=
  if pyIn dateAnchorL (pyStrip l) then
    match rest with
    | next :: _ => applyDateLine re next d
    | [] => d
  else d

/-- The `Type Treatment` anchor check of the loop body. -/
def stimTreatStep (l : List Char) (rest : List (List Char)) (d : StimData) : StimData :=
  if pyIn treatAnchorL (pyStrip l) then
    match rest with
    | next :: _ => applyTreatLine next d
    | [] => d
  else d

/-- The line loop shared (up to the date-line regex) by both parsers:
three independent anchor checks per line, with the `Details` branch
breaking out of the loop. -/
def stimLoop (re : RE) : List (List Char) → StimData → StimData
  | [], d => d
  | l :: rest, d =>
    let d2 := stimTreatStep l rest (stimDateStep re l rest d)
    if pyIn detailsAnchorL (pyStrip l) then
      (if (detailsCollect rest).isEmpty then d2
       else { d2 with proppant_details := some ⟨joinNL (detailsCollect rest)⟩ })
    else stimLoop re rest d2

def parse_stimulation_data_doc1 (text : String) : StimData :=
  stimLoop doc1DateRe (pySplitlines text.data) {}

def parse_stimulation_data_doc2 (text : String) : StimData :=
  stimLoop doc2DateRe (pySplitlines text.data) {}

/-- The backfill step of `merge_stimulation_data`: keep the primary value
unless it is `None`. -/
def optFill : Option String → Option String → Option String
  | none, y => y
  | some v, _ => some v

/-- `merge_stimulation_data` (`pdf_parse.py:347`): backfill exactly the seven
required keys from the secondary record. -/
def merge_stimulation_data (d1 d2 : StimData) : StimData :=
  { d1 with
    date_stimulated := optFill d1.date_stimulated d2.date_stimulated,
    stimulated_formation := optFill d1.stimulated_formation d2.stimulated_formation,
    top_depth := optFill d1.top_depth d2.top_depth,
    bottom_depth := optFill d1.bottom_depth d2.bottom_depth,
    stimulation_stages := optFill d1.stimulation_stages d2.stimulation_stages,
    volume := optFill d1.volume d2.volume,
    volume_units := optFill d1.volume_units d2.volume_units }

/-- `any(stim_data.get(key) is None for key in required_keys)` in `main`. -/
def anyRequiredNone (d : StimData) : Bool :=
  d.date_stimulated.isNone || d.stimulated_formation.isNone || d.top_depth.isNone ||
  d.bottom_depth.isNone || d.stimulation_stages.isNone || d.volume.isNone ||
  d.volume_units.isNone

/-- The stimulation part of `main` (`pdf_parse.py:480-486`): run strategy A,
and if any required field is missing run strategy B and merge. -/
def mainStimData (text : String) : StimData :=
  let a := parse_stimulation_data_doc1 text
  if anyRequiredNone a then merge_stimulation_data a (parse_stimulation_data_doc2 text)
  else a

/-- Python truthiness of a string-or-`None` value. -/
def pyTruthy : Option String → Bool
  | none => false
  | some s => s != ""

/-- The emission decision of `main` (`pdf_parse.py:489`):
`if stim_data["date_stimulated"] or stim_data["stimulated_formation"]`. -/
def emitStimulation (text : String) : Bool :=
  pyTruthy (mainStimData text).date_stimulated ||
  pyTruthy (mainStimData text).stimulated_formation

/-! ## Well-info parsing (`parse_well_info`) -/

/-- Section locator (`pdf_parse.py:149`): substring after the leftmost
case-insensitive anchor among `Well Information`, `WELL DATA SUMMARY`,
`SYNOPSIS` (the `(.*)` group with DOTALL), or the full text when none
matches. -/
def sectionScan : List Char → Option (List Char)
  | [] => none
  | c :: t =>
    if startsWithCIL (c :: t) "Well Information".data then
      some ((c :: t).drop ("Well Information".length))
    else if startsWithCIL (c :: t) "WELL DATA SUMMARY".data then
      some ((c :: t).drop ("WELL DATA SUMMARY".length))
    else if startsWithCIL (c :: t) "SYNOPSIS".data then
      some ((c :: t).drop ("SYNOPSIS".length))
    else sectionScan t

def sectionTextOf (cs : List Char) : List Char :=
  match sectionScan cs with
  | some s => s
  | none => cs

/-- `Operator\s*(.+)` (searched with `re.IGNORECASE`). -/
def operatorRe : RE := .cat [.strCI "Operator", .wsStar, .group 1 (.plus .dot)]

/-- `API\s*(?:#|#:|NUMBER)\s*[:\-]?\s*([0-9\-]+)`. -/
def apiRe : RE := .cat [.strCI "API", .wsStar,
  .alt (.chr '#') (.alt (.strLit "#:") (.strCI "NUMBER")),
  .wsStar, .opt (.cls (fun c => c == ':' || c == '-')), .wsStar,
  .group 1 (.plus (.cls (fun c => isDigitB c || c == '-')))]

/-- `Well Name:\s*([^\n]+)`. -/
def wellNameRe : RE := .cat [.strCI "Well Name:", .wsStar,
  .group 1 (.plus (.cls (fun c => c != '\n')))]

/-- `Enseco\s*Job\s*#:\s*([^\s]+)`. -/
def ensecoRe : RE := .cat [.strCI "Enseco", .wsStar, .strCI "Job", .wsStar,
  .strLit "#:", .wsStar, .group 1 (.plus (.cls (fun c => !isSpaceB c)))]

/-- `Well\s*Type:\s*([^\n]+)`. -/
def jobTypeRe : RE := .cat [.strCI "Well", .wsStar, .strCI "Type:", .wsStar,
  .group 1 (.plus (.cls (fun c => c != '\n')))]

/-- `County[/,]\s*State\s*(.+)`. -/
def countyStateRe : RE := .cat [.strCI "County",
  .cls (fun c => c == '/' || c == ','), .wsStar, .strCI "State", .wsStar,
  .group 1 (.plus .dot)]

/-- `Surface Location\s*(.+)`. -/
def shlRe : RE := .cat [.strCI "Surface Location", .wsStar, .group 1 (.plus .dot)]

/-- `Datum:\s*([^\n]+)`. -/
def datumRe : RE := .cat [.strCI "Datum:", .wsStar,
  .group 1 (.plus (.cls (fun c => c != '\n')))]

/-- The body of `match_and_set`: `re.search` then `m.group(1).strip()`. -/
def fieldFrom (re : RE) (sec : List Char) : Option String :=
  match reSearch re sec with
  | some caps => some ⟨pyStrip (groupL sec caps 1)⟩
  | none => none

/-! ### The DMS coordinate patterns

The latitude/longitude regexes
`(?i)LATITUDE\s*:?\s*(\d{1,3})\s*(?:°|[^\d\w])\s*(\d{1,2})\s*(?:\x27|’)?\s*(\d{1,2}(?:[.,]\d+)?)(?:\x22|°|”)?\s*([NS])`
are embedded as a hand-written backtracking matcher whose alternative
lists are ordered exactly as the Python engine explores them (greedy
quantifiers longest-first, optional items present-first); this keeps the
digit-count bounds of the captures available to the proofs below. -/

/-- The `\s*` alternatives at a position, in the greedy exploration order
(maximal consumption first); each element is the remaining input. -/
def wsStarAlts : List Char → List (List Char)
  | [] => [[]]
  | c :: cs => if isSpaceB c then wsStarAlts cs ++ [c :: cs] else [c :: cs]

/-- The `X{1,n}` alternatives for a character class, longest first:
`(consumed, rest)` pairs. -/
def digitAlts : Nat → List Char → List (List Char × List Char)
  | 0, _ => []
  | _ + 1, [] => []
  | n + 1, c :: cs =>
    if isDigitB c then
      (digitAlts n cs).map (fun p => (c :: p.1, p.2)) ++ [([c], cs)]
    else []

/-- The `\d+` alternatives, longest first. -/
def digitPlusAlts : List Char → List (List Char × List Char)
  | [] => []
  | c :: cs =>
    if isDigitB c then
      (digitPlusAlts cs).map (fun p => (c :: p.1, p.2)) ++ [([c], cs)]
    else []

/-- The `(?:[.,]\d+)?` alternatives, with-fraction first (greedy `?`). -/
def fracAlts (cs : List Char) : List (List Char × List Char) :=
  (match cs with
   | c :: rest =>
     if c == '.' || c == ',' then
       (digitPlusAlts rest).map (fun p => (c :: p.1, p.2))
     else []
   | [] => []) ++ [([], cs)]

/-- An optional single-character class, present-first (greedy `?`):
remaining inputs. -/
def optCharAlts (p : Char → Bool) : List Char → List (List Char)
  | [] => [[]]
  | c :: cs => if p c then [cs, c :: cs] else [c :: cs]

def firstSome {α β : Type} (f : α → Option β) : List α → Option β
  | [] => none
  | x :: xs =>
    match f x with
    | some r => some r
    | none => firstSome f xs

/-- The degree-separator `(?:°|[^\d\w])`. -/
def isDegSep (c : Char) : Bool := c == '°' || (!isDigitB c && !isWordB c)

/-- `(?:\x27|’)?` minute marks. -/
def isMinMark (c : Char) : Bool := c == '\x27' || c == '’'

/-- `(?:\x22|°|”)?` second marks. -/
def isSecMark (c : Char) : Bool := c == '\x22' || c == '°' || c == '”'

/-- The single-character degree-separator step `(?:°|[^\\d\\w])`. -/
def degSepStep (f : List Char → Option DmsCaps) : List Char → Option DmsCaps
  | c :: cs => if isDegSep c then f cs else none
  | [] => none

/-- The captured DMS tuple: degree digits, minute digits, the seconds token
(digits with optional `[.,]` fraction, verbatim), hemisphere character. -/
structure DmsCaps where
  deg : List Char
  min : List Char
  sec : List Char
  hemi : Char
deriving DecidableEq

/-- The final hemisphere-letter step `([NS])` / `([EW])`. -/
def hemiStep (hemi : Char → Bool) (mk : Char → DmsCaps) : List Char → Option DmsCaps
  | h :: _ => if hemi h then some (mk h) else none
  | [] => none

/-- Matcher for the pattern tail after the `LATITUDE`/`LONGITUDE` literal:
`\s*:?\s*(\d{1,3})\s*(?:°|[^\d\w])\s*(\d{1,2})\s*(?:\x27|’)?\s*(\d{1,2}(?:[.,]\d+)?)(?:\x22|°|”)?\s*([NS])`. -/
def matchDmsTail (hemi : Char → Bool) (cs0 : List Char) : Option DmsCaps :=
  firstSome (fun cs1 =>
    firstSome (fun cs2 =>
      firstSome (fun cs3 =>
        firstSome (fun dp =>
          firstSome (degSepStep (fun cs6 =>
            firstSome (fun cs7 =>
              firstSome (fun mp =>
                firstSome (fun cs8 =>
                  firstSome (fun cs9 =>
                    firstSome (fun cs10 =>
                      firstSome (fun sp =>
                        firstSome (fun fp =>
                          firstSome (fun cs13 =>
                            firstSome
                              (hemiStep hemi (fun h => ⟨dp.1, mp.1, sp.1 ++ fp.1, h⟩))
                              (wsStarAlts cs13))
                          (optCharAlts isSecMark fp.2))
                        (fracAlts sp.2))
                      (digitAlts 2 cs10))
                    (wsStarAlts cs9))
                  (optCharAlts isMinMark cs8))
                (wsStarAlts mp.2))
              (digitAlts 2 cs7))
            (wsStarAlts cs6)))
            (wsStarAlts dp.2))
          (digitAlts 3 cs3))
        (wsStarAlts cs2))
      (optCharAlts (fun c => c == ':') cs1))
    (wsStarAlts cs0)

/-- `re.search` for the whole DMS pattern: leftmost occurrence of the
case-insensitive literal followed by a matching tail. -/
def searchDms (lit : List Char) (hemi : Char → Bool) : List Char → Option DmsCaps
  | [] => none
  | c :: t =>
    match (if startsWithCIL (c :: t) lit then matchDmsTail hemi ((c :: t).drop lit.length) else none) with
    | some r => some r
    | none => searchDms lit hemi t

def hemiNS (c : Char) : Bool := c.toUpper == 'N' || c.toUpper == 'S'

def hemiEW (c : Char) : Bool := c.toUpper == 'E' || c.toUpper == 'W'

/-- `seconds.replace(',', '.')`. -/
def commaToDot (cs : List Char) : List Char :=
  cs.map (fun c => if c == ',' then '.' else c)

/-- `dms_to_decimal` (`pdf_parse.py:192`): `float` conversions are exact on
the captured digit tokens; `none` models an unreachable `ValueError`. -/
def dms_to_decimal (deg minutes seconds : List Char) (direction : Char) : Option ℚ :=
  match pyFloat deg, pyFloat minutes, pyFloat (commaToDot seconds) with
  | some dq, some mq, some sq =>
    let dec := dq + mq / 60 + sq / 3600
    some (if direction.toUpper == 'S' || direction.toUpper == 'W' then -dec else dec)
  | _, _, _ => none

/-- The well-info dictionary. -/
structure WellData where
  operator : Option String := none
  api_number : Option String := none
  well_name : Option String := none
  enseco_job_number : Option String := none
  job_type : Option String := none
  county_state : Option String := none
  well_shl : Option String := none
  latitude : Option ℚ := none
  longitude : Option ℚ := none
  datum : Option String := none
deriving DecidableEq

/-- `parse_well_info` (`pdf_parse.py:144`). -/
def parse_well_info (text : String) : WellData :=
  let sec := sectionTextOf text.data
  { operator := fieldFrom operatorRe sec
    api_number := fieldFrom apiRe sec
    well_name := fieldFrom wellNameRe sec
    enseco_job_number := fieldFrom ensecoRe sec
    job_type := fieldFrom jobTypeRe sec
    county_state := fieldFrom countyStateRe sec
    well_shl := fieldFrom shlRe sec
    datum := fieldFrom datumRe sec
    latitude :=
      match searchDms "LATITUDE".data hemiNS sec with
      | some t => dms_to_decimal t.deg t.min t.sec t.hemi
      | none => none
    longitude :=
      match searchDms "LONGITUDE".data hemiEW sec with
      | some t => dms_to_decimal t.deg t.min t.sec t.hemi
      | none => none }

/-! ## Page-text acquisition (`extract_text_from_pdf`) -/

/-- One page of the source PDF as seen by `extract_text_from_pdf`:
the outcome of `page.extract_text() or ""`, of `convert_from_path`
(whether it returns a non-empty image list), and of
`pytesseract.image_to_string(images[0])`.  `Except.error` models a raised
exception. -/
structure PdfPage where
  native : Except Unit String
  images : Except Unit Bool
  ocr : Except Unit String

/-- The page loop of `extract_text_from_pdf` (`pdf_parse.py:121-137`),
numbering pages from `n`.  Returns the accumulated `full_text` and the list
of page numbers for which the OCR fallback ran.  The whole loop sits in one
`try`, so any raised exception ends processing and the text gathered so far
is returned. -/
def extractPagesAux (minChars : Nat) : Nat → List PdfPage → String × List Nat
  | _, [] => ("", [])
  | n, p :: rest =>
    match p.native with
    | .error _ => ("", [])
    | .ok t0 =>
      if (pyStrip t0.data).length < minChars then
        match p.images with
        | .error _ => ("", [])
        | .ok hasImages =>
          if hasImages then
            match p.ocr with
            | .error _ => ("", [])
            | .ok o =>
              let t : String := ⟨pyStrip (pyStrip t0.data ++ '\n' :: pyStrip o.data)⟩
              let r := extractPagesAux minChars (n + 1) rest
              (t ++ "\n" ++ r.1, n :: r.2)
          else
            let r := extractPagesAux minChars (n + 1) rest
            (t0 ++ "\n" ++ r.1, n :: r.2)
      else
        let r := extractPagesAux minChars (n + 1) rest
        (t0 ++ "\n" ++ r.1, r.2)

/-- `extract_text_from_pdf` with its default `min_chars_per_page=30`;
pages are numbered from 1 as in the `enumerate(pdf.pages, start=1)` loop. -/
def extract_text_from_pdf (pages : List PdfPage) (minChars : Nat := 30) : String × List Nat :=
  extractPagesAux minChars 1 pages

/-- A page on which the loop body completes without raising. -/
def pageOk (minChars : Nat) (p : PdfPage) : Bool :=
  match p.native with
  | .error _ => false
  | .ok t0 =>
    if (pyStrip t0.data).length < minChars then
      match p.images with
      | .error _ => false
      | .ok hasImages =>
        if hasImages then (match p.ocr with | .error _ => false | .ok _ => true)
        else true
    else true

/-- A concrete page whose native extraction yields 40 characters (used by
the C7 counterexample and witness). -/
def pageLong : PdfPage :=
  { native := .ok "0123456789012345678901234567890123456789"
    images := .ok true
    ocr := .ok "y" }

/-- A concrete page whose native extraction raises. -/
def pageFail : PdfPage :=
  { native := .error ()
    images := .ok true
    ocr := .ok "x" }

/-! ## Text normaliser (`clean_text`, `data.preprocessing.py:88`) -/

/-- `BeautifulSoup(text, "html.parser").get_text()`, modelled for inputs
without HTML character entities: tag spans `<...>` are removed (an
unterminated `<` swallows the rest), everything else is returned verbatim.
The idempotence argument only uses its behaviour on markup-free strings,
where the real library is also the identity. -/
def bsGetText : List Char → List Char
  | [] => []
  | '<' :: rest => bsGetText (rest.dropWhile (fun c => c != '>')).tail
  | c :: rest => c :: bsGetText rest
termination_by cs => cs.length
decreasing_by
  · have h1 : (rest.dropWhile (fun c => c != '>')).length ≤ rest.length :=
      (List.dropWhile_suffix _).length_le
    have h2 : (rest.dropWhile (fun c => c != '>')).tail.length ≤
        (rest.dropWhile (fun c => c != '>')).length := by
      cases rest.dropWhile (fun c => c != '>') <;> simp
    simp only [List.length_cons]
    omega
  · simp only [List.length_cons]
    omega

/-- The character class kept by `re.sub(r"[^a-zA-Z0-9.,\s-]", "", text)`. -/
def isKeptB (c : Char) : Bool :=
  c.isAlpha || c.isDigit || c == '.' || c == ',' || isSpaceB c || c == '-'

/-- `re.sub(r":\s*", "", text)`. -/
def colonSub : List Char → List Char
  | [] => []
  | ':' :: rest => colonSub (rest.dropWhile isSpaceB)
  | c :: rest => c :: colonSub rest
termination_by cs => cs.length
decreasing_by
  · have h1 : (rest.dropWhile isSpaceB).length ≤ rest.length :=
      (List.dropWhile_suffix _).length_le
    simp only [List.length_cons]
    omega
  · simp only [List.length_cons]
    omega

/-- `re.sub(r"\s+", " ", text)`. -/
def wsCollapse : List Char → List Char
  | [] => []
  | c :: rest =>
    if isSpaceB c then ' ' :: wsCollapse (rest.dropWhile isSpaceB)
    else c :: wsCollapse rest
termination_by cs => cs.length
decreasing_by
  all_goals simp only [List.length_cons]
  · have h1 : (t.dropWhile isSpaceB).length ≤ t.length :=
      (List.dropWhile_suffix _).length_le
    omega
  · omega

/-- `clean_text` with the default `preserve_tags=False` on a string input
(the datetime branches do not apply to strings). -/
def clean_text (text : String) : String :=
  if text = "" then "N/A"
  else
    let probe := pyUpperL (text.data.filter (fun c => !isSpaceB c))
    if probe = "NA".data then "N/A"
    else
      let t1 := bsGetText text.data
      let t2 := t1.filter isKeptB
      let t3 := colonSub t2
      let t4 := pyStrip (wsCollapse t3)
      if t4.isEmpty then "N/A" else ⟨t4⟩

/-! ## Block-stat parsing (`process_block_stats`, `data.preprocessing.py:137`) -/

/-- `([\d\.]+)\s*([kKmMbB]?)\s*(MCF|Barrels)\s+of\s+[a-zA-Z\s]+\s+in\s+([a-zA-Z]+)\s+(\d{4})`
(no IGNORECASE flag). -/
def blockRe : RE := .cat [
  .group 1 (.plus (.cls (fun c => isDigitB c || c == '.'))),
  .wsStar,
  .group 2 (.opt (.cls (fun c => c == 'k' || c == 'K' || c == 'm' || c == 'M' || c == 'b' || c == 'B'))),
  .wsStar,
  .group 3 (.alt (.strLit "MCF") (.strLit "Barrels")),
  .wsPlus, .strLit "of", .wsPlus,
  .plus (.cls (fun c => c.isAlpha || isSpaceB c)),
  .wsPlus, .strLit "in", .wsPlus,
  .group 4 (.plus (.cls Char.isAlpha)),
  .wsPlus,
  .group 5 (.cat [.d, .d, .d, .d])]

/-- A row inserted into `block_stats_data`. -/
structure BlockStatEntry where
  quantity : ℚ
  unit : String
  month : String
  year : Nat
deriving DecidableEq

/-- The suffix scaling of `process_block_stats`. -/
def suffixScale (sfx : String) : ℚ :=
  if sfx = "K" then 1000 else if sfx = "M" then 1000000
  else if sfx = "B" then 1000000000 else 1

/-- The matched-entry branch: `float(match.group(1))` (which raises on a
multi-dot token), then the suffix scaling on the upper-cased group 2 and
the row insertion. -/
def processMatched (es : List Char) (caps : Caps) : Except Unit (Option BlockStatEntry) :=
  match pyFloat (groupL es caps 1) with
  | none => .error ()
  | some q =>
    .ok (some
      { quantity := q * suffixScale ⟨pyUpperL (groupL es caps 2)⟩
        unit := ⟨pyUpperL (groupL es caps 3)⟩
        month := ⟨groupL es caps 4⟩
        year := natOfDigits (groupL es caps 5) })

/-- One iteration of the entry loop: `.ok (some e)` inserts a row,
`.ok none` records a warning for an unmatched entry, `.error ()` models the
uncaught `ValueError` from `float(match.group(1))`. -/
def processEntry (entry : List Char) : Except Unit (Option BlockStatEntry) :=
  match reSearch blockRe (pyStrip entry) with
  | none => .ok none
  | some caps => processMatched (pyStrip entry) caps

/-- The entry loop over `block_stats.split(',')`: collected rows and
warning messages (the stripped unmatched entries), or the propagated
exception. -/
def processEntriesAux : List (List Char) → Except Unit (List BlockStatEntry × List String)
  | [] => .ok ([], [])
  | e :: rest =>
    match processEntry e with
    | .error _ => .error ()
    | .ok none =>
      match processEntriesAux rest with
      | .error _ => .error ()
      | .ok (es, ws) => .ok (es, (⟨pyStrip e⟩ : String) :: ws)
    | .ok (some b) =>
      match processEntriesAux rest with
      | .error _ => .error ()
      | .ok (es, ws) => .ok (b :: es, ws)

/-- `process_block_stats` as a function of its input string (the database
cursor inserts become the returned row list). -/
def process_block_stats (blockStats : String) :
    Except Unit (List BlockStatEntry × List String) :=
  processEntriesAux (pySplitComma blockStats.data)

/-- No two adjacent characters are both whitespace (the spacing shape of
`re.sub(r"\s+", " ", ...)` output). -/
def noWsRun : List Char → Bool
  | [] => true
  | [_] => true
  | c :: d :: rest => (!(isSpaceB c) || !(isSpaceB d)) && noWsRun (d :: rest)


/-! # Theorems -/

/-! ## Shared helper lemmas -/

theorem dropWhile_isSpace_idem (l : List Char) :
    (l.dropWhile isSpaceB).dropWhile isSpaceB = l.dropWhile isSpaceB := by
  induction l with
  | nil => simp
  | cons c t ih => by_cases h : isSpaceB c <;> simp [List.dropWhile_cons, h, ih]

theorem pyStrip_idem (cs : List Char) : pyStrip (pyStrip cs) = pyStrip cs := by
  unfold pyStrip
  have hAd : (cs.dropWhile isSpaceB).dropWhile isSpaceB = cs.dropWhile isSpaceB :=
    dropWhile_isSpace_idem cs
  have hRd : (((cs.dropWhile isSpaceB).reverse.dropWhile isSpaceB).dropWhile isSpaceB) =
      (cs.dropWhile isSpaceB).reverse.dropWhile isSpaceB :=
    dropWhile_isSpace_idem _
  have hpre : (((cs.dropWhile isSpaceB).reverse.dropWhile isSpaceB).reverse).dropWhile isSpaceB =
      ((cs.dropWhile isSpaceB).reverse.dropWhile isSpaceB).reverse := by
    obtain ⟨t, ht⟩ :=
      List.dropWhile_suffix (l := (cs.dropWhile isSpaceB).reverse) (p := isSpaceB)
    have hA2 : cs.dropWhile isSpaceB =
        ((cs.dropWhile isSpaceB).reverse.dropWhile isSpaceB).reverse ++ t.reverse := by
      have h2 := congrArg List.reverse ht
      simpa [List.reverse_append] using h2.symm
    rcases hRev : ((cs.dropWhile isSpaceB).reverse.dropWhile isSpaceB).reverse with _ | ⟨c, x⟩
    · simp
    · have hc : ¬ (isSpaceB c = true) := by
        intro hcc
        have hthis := hAd
        rw [hA2, hRev] at hthis
        rw [List.cons_append, List.dropWhile_cons, if_pos hcc] at hthis
        have hle := (List.dropWhile_suffix (l := x ++ t.reverse) (p := isSpaceB)).length_le
        rw [hthis] at hle
        simp at hle
      simp [List.dropWhile_cons, hc]
  rw [hpre]
  rw [List.reverse_reverse, hRd]

theorem pyStripStr_idem (s : String) : pyStripStr (pyStripStr s) = pyStripStr s := by
  simp [pyStripStr, pyStrip_idem]

theorem firstSome_some {α β : Type} {f : α → Option β} {l : List α} {b : β}
    (h : firstSome f l = some b) : ∃ a ∈ l, f a = some b := by
  induction l with
  | nil => simp [firstSome] at h
  | cons x xs ih =>
    rw [firstSome] at h
    rcases hx : f x with _ | r
    · rw [hx] at h
      obtain ⟨a, ha, hfa⟩ := ih h
      exact ⟨a, List.mem_cons_of_mem _ ha, hfa⟩
    · rw [hx] at h
      cases h
      exact ⟨x, List.mem_cons_self _ _, hx⟩

theorem mem_digitAlts {n : Nat} {cs ds rest : List Char}
    (h : (ds, rest) ∈ digitAlts n cs) :
    ds.length ≤ n ∧ ds ≠ [] ∧ ∀ c ∈ ds, isDigitB c := by
  induction n generalizing cs ds rest with
  | zero => simp [digitAlts] at h
  | succ n ih =>
    rcases cs with _ | ⟨c, cs'⟩
    · simp [digitAlts] at h
    · rw [digitAlts] at h
      by_cases hc : isDigitB c
      · rw [if_pos hc] at h
        rcases List.mem_append.mp h with h1 | h2
        · obtain ⟨⟨ds', rest'⟩, hmem, heq⟩ := List.mem_map.mp h1
          obtain ⟨h3, h4⟩ := Prod.mk.injEq .. ▸ heq
          obtain ⟨hl, hne, hdig⟩ := ih hmem
          subst h3; subst h4
          refine ⟨by simpa using Nat.succ_le_succ hl, by simp, ?_⟩
          intro d hd
          rcases List.mem_cons.mp hd with rfl | hd'
          · exact hc
          · exact hdig d hd'
        · simp at h2
          obtain ⟨h3, h4⟩ := h2
          subst h3; subst h4
          exact ⟨by simp, by simp, by simpa using hc⟩
      · rw [if_neg hc] at h
        simp at h

theorem mem_digitPlusAlts {cs ds rest : List Char}
    (h : (ds, rest) ∈ digitPlusAlts cs) :
    ds ≠ [] ∧ ∀ c ∈ ds, isDigitB c := by
  induction cs generalizing ds rest with
  | nil => simp [digitPlusAlts] at h
  | cons c cs' ih =>
    rw [digitPlusAlts] at h
    by_cases hc : isDigitB c
    · rw [if_pos hc] at h
      rcases List.mem_append.mp h with h1 | h2
      · obtain ⟨⟨ds', rest'⟩, hmem, heq⟩ := List.mem_map.mp h1
        obtain ⟨h3, h4⟩ := Prod.mk.injEq .. ▸ heq
        obtain ⟨hne, hdig⟩ := ih hmem
        subst h3; subst h4
        refine ⟨by simp, ?_⟩
        intro d hd
        rcases List.mem_cons.mp hd with rfl | hd'
        · exact hc
        · exact hdig d hd'
      · simp at h2
        obtain ⟨h3, h4⟩ := h2
        subst h3; subst h4
        exact ⟨by simp, by simpa using hc⟩
    · rw [if_neg hc] at h
      simp at h

theorem mem_fracAlts {cs fr rest : List Char}
    (h : (fr, rest) ∈ fracAlts cs) :
    fr = [] ∨ ∃ c fd, fr = c :: fd ∧ (c = '.' ∨ c = ',') ∧ fd ≠ [] ∧ ∀ x ∈ fd, isDigitB x := by
  rw [fracAlts.eq_def] at h
  rcases List.mem_append.mp h with h1 | h2
  · rcases cs with _ | ⟨c, rest'⟩
    · simp at h1
    · dsimp only at h1
      by_cases hc : (c == '.' || c == ',') = true
      · rw [if_pos hc] at h1
        obtain ⟨⟨ds', rest''⟩, hmem, heq⟩ := List.mem_map.mp h1
        obtain ⟨h3, h4⟩ := Prod.mk.injEq .. ▸ heq
        obtain ⟨hne, hdig⟩ := mem_digitPlusAlts hmem
        subst h3; subst h4
        right
        refine ⟨c, ds', rfl, ?_, hne, hdig⟩
        rcases Bool.or_eq_true .. ▸ hc with h | h
        · exact Or.inl (by simpa using h)
        · exact Or.inr (by simpa using h)
      · rw [if_neg hc] at h1
        simp at h1
  · simp at h2
    exact Or.inl h2.1

theorem natOfDigits_lt {ds : List Char} (h : ∀ c ∈ ds, isDigitB c) :
    natOfDigits ds < 10 ^ ds.length := by
  induction ds with
  | nil => simp [natOfDigits]
  | cons c t ih =>
    have hc : isDigitB c := h c (List.mem_cons_self _ _)
    have hd : c.toNat - 48 ≤ 9 := by
      simp [isDigitB, Char.isDigit] at hc
      obtain ⟨h1, h2⟩ := hc
      have h3 : c.val.toNat ≤ 57 := by exact_mod_cast h2
      simp [Char.toNat]
      omega
    have ht := ih (fun d hd => h d (List.mem_cons_of_mem _ hd))
    rw [natOfDigits, List.length_cons, pow_succ]
    calc (c.toNat - 48) * 10 ^ t.length + natOfDigits t
        ≤ 9 * 10 ^ t.length + natOfDigits t := by
          exact Nat.add_le_add_right (Nat.mul_le_mul_right _ hd) _
      _ < 9 * 10 ^ t.length + 10 ^ t.length := by omega
      _ = 10 ^ t.length * 10 := by ring

theorem takeWhile_eq_self_of_all {p : Char → Bool} {l : List Char}
    (h : ∀ c ∈ l, p c) : l.takeWhile p = l := by
  induction l with
  | nil => simp
  | cons c t ih =>
    rw [List.takeWhile_cons, if_pos (h c (List.mem_cons_self _ _))]
    rw [ih (fun d hd => h d (List.mem_cons_of_mem _ hd))]

theorem dropWhile_eq_nil_of_all {p : Char → Bool} {l : List Char}
    (h : ∀ c ∈ l, p c) : l.dropWhile p = [] := by
  induction l with
  | nil => simp
  | cons c t ih =>
    rw [List.dropWhile_cons, if_pos (h c (List.mem_cons_self _ _))]
    exact ih (fun d hd => h d (List.mem_cons_of_mem _ hd))

theorem pyFloat_digits {ds : List Char} (hne : ds ≠ [])
    (h : ∀ c ∈ ds, isDigitB c) : pyFloat ds = some ((natOfDigits ds : ℚ)) := by
  unfold pyFloat
  rw [dropWhile_eq_nil_of_all h]
  simp [takeWhile_eq_self_of_all h, hne]

theorem pyFloat_digits_frac {ds fs : List Char} (hd : ∀ c ∈ ds, isDigitB c)
    (hf : ∀ c ∈ fs, isDigitB c) (hds : ds ≠ []) :
    pyFloat (ds ++ '.' :: fs) =
      some ((natOfDigits ds : ℚ) + (natOfDigits fs : ℚ) / 10 ^ fs.length) := by
  have hdot : isDigitB '.' = false := by decide
  have htake : ∀ l : List Char, (∀ c ∈ l, isDigitB c) →
      (l ++ '.' :: fs).takeWhile isDigitB = l := by
    intro l
    induction l with
    | nil => intro _; simp [List.takeWhile_cons, hdot]
    | cons c t ih =>
      intro hl
      rw [List.cons_append, List.takeWhile_cons, if_pos (hl c (List.mem_cons_self _ _))]
      rw [ih (fun d hdd => hl d (List.mem_cons_of_mem _ hdd))]
  have hdrop : ∀ l : List Char, (∀ c ∈ l, isDigitB c) →
      (l ++ '.' :: fs).dropWhile isDigitB = '.' :: fs := by
    intro l
    induction l with
    | nil => intro _; simp [List.dropWhile_cons, hdot]
    | cons c t ih =>
      intro hl
      rw [List.cons_append, List.dropWhile_cons, if_pos (hl c (List.mem_cons_self _ _))]
      exact ih (fun d hdd => hl d (List.mem_cons_of_mem _ hdd))
  unfold pyFloat
  rw [hdrop ds hd]
  simp [htake ds hd, takeWhile_eq_self_of_all hf, dropWhile_eq_nil_of_all hf, hds]

theorem pyFloat_nonneg {cs : List Char} {q : ℚ} (h : pyFloat cs = some q) : 0 ≤ q := by
  unfold pyFloat at h
  split at h
  · split_ifs at h
    cases h
    positivity
  · split_ifs at h
    cases h
    positivity
  · cases h

theorem commaToDot_digits {ds : List Char} (h : ∀ c ∈ ds, isDigitB c) :
    commaToDot ds = ds := by
  induction ds with
  | nil => rfl
  | cons c t ih =>
    have hc := h c (List.mem_cons_self _ _)
    have hne : c ≠ ',' := by
      intro he
      subst he
      exact absurd hc (by decide)
    have ht := ih (fun d hd => h d (List.mem_cons_of_mem _ hd))
    simp only [commaToDot, List.map_cons] at ht ⊢
    rw [ht, if_neg (by simpa using hne)]

/-! ## Claim C1: merge policy of the stimulation extractor -/

/-- C1.  Strategy A (`parse_stimulation_data_doc1`) runs first as primary;
Strategy B (`parse_stimulation_data_doc2`) runs exactly when one of the
seven required fields is null in A's result, and then each of those seven
fields is A's value when A populated it and B's value when A's is null
(so B never overwrites a populated field); every field outside the seven
(type_treatment, acid_percent, lbs_proppant, max_treatment_pressure,
max_treatment_rate, proppant_details) in the merged result is exactly A's
value. -/
theorem c1_merge_policy (text : String) :
    (mainStimData text).date_stimulated =
      (if anyRequiredNone (parse_stimulation_data_doc1 text) then
        optFill (parse_stimulation_data_doc1 text).date_stimulated
          (parse_stimulation_data_doc2 text).date_stimulated
      else (parse_stimulation_data_doc1 text).date_stimulated) ∧
    (mainStimData text).stimulated_formation =
      (if anyRequiredNone (parse_stimulation_data_doc1 text) then
        optFill (parse_stimulation_data_doc1 text).stimulated_formation
          (parse_stimulation_data_doc2 text).stimulated_formation
      else (parse_stimulation_data_doc1 text).stimulated_formation) ∧
    (mainStimData text).top_depth =
      (if anyRequiredNone (parse_stimulation_data_doc1 text) then
        optFill (parse_stimulation_data_doc1 text).top_depth
          (parse_stimulation_data_doc2 text).top_depth
      else (parse_stimulation_data_doc1 text).top_depth) ∧
    (mainStimData text).bottom_depth =
      (if anyRequiredNone (parse_stimulation_data_doc1 text) then
        optFill (parse_stimulation_data_doc1 text).bottom_depth
          (parse_stimulation_data_doc2 text).bottom_depth
      else (parse_stimulation_data_doc1 text).bottom_depth) ∧
    (mainStimData text).stimulation_stages =
      (if anyRequiredNone (parse_stimulation_data_doc1 text) then
        optFill (parse_stimulation_data_doc1 text).stimulation_stages
          (parse_stimulation_data_doc2 text).stimulation_stages
      else (parse_stimulation_data_doc1 text).stimulation_stages) ∧
    (mainStimData text).volume =
      (if anyRequiredNone (parse_stimulation_data_doc1 text) then
        optFill (parse_stimulation_data_doc1 text).volume
          (parse_stimulation_data_doc2 text).volume
      else (parse_stimulation_data_doc1 text).volume) ∧
    (mainStimData text).volume_units =
      (if anyRequiredNone (parse_stimulation_data_doc1 text) then
        optFill (parse_stimulation_data_doc1 text).volume_units
          (parse_stimulation_data_doc2 text).volume_units
      else (parse_stimulation_data_doc1 text).volume_units) ∧
    (mainStimData text).type_treatment = (parse_stimulation_data_doc1 text).type_treatment ∧
    (mainStimData text).acid_percent = (parse_stimulation_data_doc1 text).acid_percent ∧
    (mainStimData text).lbs_proppant = (parse_stimulation_data_doc1 text).lbs_proppant ∧
    (mainStimData text).max_treatment_pressure =
      (parse_stimulation_data_doc1 text).max_treatment_pressure ∧
    (mainStimData text).max_treatment_rate =
      (parse_stimulation_data_doc1 text).max_treatment_rate ∧
    (mainStimData text).proppant_details =
      (parse_stimulation_data_doc1 text).proppant_details := by
  cases h : anyRequiredNone (parse_stimulation_data_doc1 text) <;>
    simp [mainStimData, merge_stimulation_data, h]

/-! ## Claim C10: the two strategies agree outside the date line -/

theorem applyDateLine_five (re : RE) (next : List Char) (d : StimData) :
    (applyDateLine re next d).type_treatment = d.type_treatment ∧
    (applyDateLine re next d).lbs_proppant = d.lbs_proppant ∧
    (applyDateLine re next d).max_treatment_pressure = d.max_treatment_pressure ∧
    (applyDateLine re next d).max_treatment_rate = d.max_treatment_rate ∧
    (applyDateLine re next d).proppant_details = d.proppant_details := by
  cases hm : reMatch re (pyStrip next) <;> simp [applyDateLine, hm]

theorem applyTreatLine_agree (next : List Char) (d1 d2 : StimData)
    (h1 : d1.type_treatment = d2.type_treatment)
    (h2 : d1.lbs_proppant = d2.lbs_proppant)
    (h3 : d1.max_treatment_pressure = d2.max_treatment_pressure)
    (h4 : d1.max_treatment_rate = d2.max_treatment_rate)
    (h5 : d1.proppant_details = d2.proppant_details) :
    (applyTreatLine next d1).type_treatment = (applyTreatLine next d2).type_treatment ∧
    (applyTreatLine next d1).lbs_proppant = (applyTreatLine next d2).lbs_proppant ∧
    (applyTreatLine next d1).max_treatment_pressure =
      (applyTreatLine next d2).max_treatment_pressure ∧
    (applyTreatLine next d1).max_treatment_rate =
      (applyTreatLine next d2).max_treatment_rate ∧
    (applyTreatLine next d1).proppant_details = (applyTreatLine next d2).proppant_details := by
  cases hm : reMatch treatRe (pyStrip next) <;>
    simp [applyTreatLine, hm, h1, h2, h3, h4, h5]

theorem stimDateStep_agree (r1 r2 : RE) (l : List Char) (rest : List (List Char))
    (d1 d2 : StimData)
    (h1 : d1.type_treatment = d2.type_treatment)
    (h2 : d1.lbs_proppant = d2.lbs_proppant)
    (h3 : d1.max_treatment_pressure = d2.max_treatment_pressure)
    (h4 : d1.max_treatment_rate = d2.max_treatment_rate)
    (h5 : d1.proppant_details = d2.proppant_details) :
    (stimDateStep r1 l rest d1).type_treatment = (stimDateStep r2 l rest d2).type_treatment ∧
    (stimDateStep r1 l rest d1).lbs_proppant = (stimDateStep r2 l rest d2).lbs_proppant ∧
    (stimDateStep r1 l rest d1).max_treatment_pressure =
      (stimDateStep r2 l rest d2).max_treatment_pressure ∧
    (stimDateStep r1 l rest d1).max_treatment_rate =
      (stimDateStep r2 l rest d2).max_treatment_rate ∧
    (stimDateStep r1 l rest d1).proppant_details =
      (stimDateStep r2 l rest d2).proppant_details := by
  unfold stimDateStep
  by_cases hd : pyIn dateAnchorL (pyStrip l)
  · rw [if_pos hd, if_pos hd]
    rcases rest with _ | ⟨next, rest'⟩
    · exact ⟨h1, h2, h3, h4, h5⟩
    · obtain ⟨a1, a2, a3, a4, a5⟩ := applyDateLine_five r1 next d1
      obtain ⟨b1, b2, b3, b4, b5⟩ := applyDateLine_five r2 next d2
      exact ⟨a1.trans (h1.trans b1.symm), a2.trans (h2.trans b2.symm),
        a3.trans (h3.trans b3.symm), a4.trans (h4.trans b4.symm),
        a5.trans (h5.trans b5.symm)⟩
  · rw [if_neg hd, if_neg hd]
    exact ⟨h1, h2, h3, h4, h5⟩

theorem stimTreatStep_agree (l : List Char) (rest : List (List Char)) (d1 d2 : StimData)
    (h1 : d1.type_treatment = d2.type_treatment)
    (h2 : d1.lbs_proppant = d2.lbs_proppant)
    (h3 : d1.max_treatment_pressure = d2.max_treatment_pressure)
    (h4 : d1.max_treatment_rate = d2.max_treatment_rate)
    (h5 : d1.proppant_details = d2.proppant_details) :
    (stimTreatStep l rest d1).type_treatment = (stimTreatStep l rest d2).type_treatment ∧
    (stimTreatStep l rest d1).lbs_proppant = (stimTreatStep l rest d2).lbs_proppant ∧
    (stimTreatStep l rest d1).max_treatment_pressure =
      (stimTreatStep l rest d2).max_treatment_pressure ∧
    (stimTreatStep l rest d1).max_treatment_rate =
      (stimTreatStep l rest d2).max_treatment_rate ∧
    (stimTreatStep l rest d1).proppant_details = (stimTreatStep l rest d2).proppant_details := by
  unfold stimTreatStep
  by_cases ht : pyIn treatAnchorL (pyStrip l)
  · rw [if_pos ht, if_pos ht]
    rcases rest with _ | ⟨next, rest'⟩
    · exact ⟨h1, h2, h3, h4, h5⟩
    · exact applyTreatLine_agree next d1 d2 h1 h2 h3 h4 h5
  · rw [if_neg ht, if_neg ht]
    exact ⟨h1, h2, h3, h4, h5⟩

theorem stimLoop_agree (r1 r2 : RE) (lines : List (List Char)) :
    ∀ d1 d2 : StimData,
    d1.type_treatment = d2.type_treatment →
    d1.lbs_proppant = d2.lbs_proppant →
    d1.max_treatment_pressure = d2.max_treatment_pressure →
    d1.max_treatment_rate = d2.max_treatment_rate →
    d1.proppant_details = d2.proppant_details →
    (stimLoop r1 lines d1).type_treatment = (stimLoop r2 lines d2).type_treatment ∧
    (stimLoop r1 lines d1).lbs_proppant = (stimLoop r2 lines d2).lbs_proppant ∧
    (stimLoop r1 lines d1).max_treatment_pressure =
      (stimLoop r2 lines d2).max_treatment_pressure ∧
    (stimLoop r1 lines d1).max_treatment_rate =
      (stimLoop r2 lines d2).max_treatment_rate ∧
    (stimLoop r1 lines d1).proppant_details = (stimLoop r2 lines d2).proppant_details := by
  induction lines with
  | nil =>
    intro d1 d2 h1 h2 h3 h4 h5
    exact ⟨h1, h2, h3, h4, h5⟩
  | cons l rest ih =>
    intro d1 d2 h1 h2 h3 h4 h5
    obtain ⟨p1, p2, p3, p4, p5⟩ := stimDateStep_agree r1 r2 l rest d1 d2 h1 h2 h3 h4 h5
    obtain ⟨q1, q2, q3, q4, q5⟩ :=
      stimTreatStep_agree l rest _ _ p1 p2 p3 p4 p5
    simp only [stimLoop]
    by_cases hdet : pyIn detailsAnchorL (pyStrip l)
    · rw [if_pos hdet, if_pos hdet]
      by_cases hdl : (detailsCollect rest).isEmpty
      · rw [if_pos hdl, if_pos hdl]
        exact ⟨q1, q2, q3, q4, q5⟩
      · rw [if_neg hdl, if_neg hdl]
        exact ⟨q1, q2, q3, q4, rfl⟩
    · rw [if_neg hdet, if_neg hdet]
      exact ih _ _ q1 q2 q3 q4 q5

/-- C10.  For every input text the two stimulation strategies return equal
values for `type_treatment`, `lbs_proppant`, `max_treatment_pressure`,
`max_treatment_rate` and `proppant_details`: the `Type Treatment` and
`Details` branches of the two parsers are identical line for line, and the
date-line branch (the only place they differ) writes none of these five
fields. -/
theorem c10_strategies_agree (text : String) :
    (parse_stimulation_data_doc1 text).type_treatment =
      (parse_stimulation_data_doc2 text).type_treatment ∧
    (parse_stimulation_data_doc1 text).lbs_proppant =
      (parse_stimulation_data_doc2 text).lbs_proppant ∧
    (parse_stimulation_data_doc1 text).max_treatment_pressure =
      (parse_stimulation_data_doc2 text).max_treatment_pressure ∧
    (parse_stimulation_data_doc1 text).max_treatment_rate =
      (parse_stimulation_data_doc2 text).max_treatment_rate ∧
    (parse_stimulation_data_doc1 text).proppant_details =
      (parse_stimulation_data_doc2 text).proppant_details := by
  unfold parse_stimulation_data_doc1 parse_stimulation_data_doc2
  exact stimLoop_agree doc1DateRe doc2DateRe (pySplitlines text.data) {} {}
    rfl rfl rfl rfl rfl

/-! ## Claim C2: the emission decision of `main` -/

theorem fmtYMD_ne_empty (y m d : Nat) : fmtYMD y m d ≠ "" := by
  intro h
  have h2 : (fmtYMD y m d).data = "".data := by rw [h]
  simp [fmtYMD] at h2

theorem applyDateLine_dateShape (re : RE) (next : List Char) (d : StimData) :
    (applyDateLine re next d).date_stimulated = d.date_stimulated ∨
    (applyDateLine re next d).date_stimulated = none ∨
    ∃ y m dd, (applyDateLine re next d).date_stimulated = some (fmtYMD y m dd) := by
  cases hm : reMatch re (pyStrip next) with
  | none => left; simp [applyDateLine, hm]
  | some caps =>
    right
    cases hs : pyStrptimeMDY (pyStrip (groupL (pyStrip next) caps 1)) with
    | none => left; simp [applyDateLine, hm, hs]
    | some t =>
      right
      obtain ⟨y, m, dd⟩ := t
      exact ⟨y, m, dd, by simp [applyDateLine, hm, hs]⟩

theorem applyTreatLine_date (next : List Char) (d : StimData) :
    (applyTreatLine next d).date_stimulated = d.date_stimulated := by
  cases hm : reMatch treatRe (pyStrip next) <;> simp [applyTreatLine, hm]

theorem stimLoop_dateShape (re : RE) (lines : List (List Char)) :
    ∀ d : StimData,
    (d.date_stimulated = none ∨ ∃ y m dd, d.date_stimulated = some (fmtYMD y m dd)) →
    ((stimLoop re lines d).date_stimulated = none ∨
     ∃ y m dd, (stimLoop re lines d).date_stimulated = some (fmtYMD y m dd)) := by
  induction lines with
  | nil => intro d h; exact h
  | cons l rest ih =>
    intro d h
    have hstep : ∀ e : StimData,
        (e.date_stimulated = none ∨ ∃ y m dd, e.date_stimulated = some (fmtYMD y m dd)) →
        ((stimTreatStep l rest (stimDateStep re l rest e)).date_stimulated = none ∨
         ∃ y m dd, (stimTreatStep l rest (stimDateStep re l rest e)).date_stimulated =
           some (fmtYMD y m dd)) := by
      intro e he
      have hd : (stimDateStep re l rest e).date_stimulated = none ∨
          ∃ y m dd, (stimDateStep re l rest e).date_stimulated = some (fmtYMD y m dd) := by
        unfold stimDateStep
        by_cases hc : pyIn dateAnchorL (pyStrip l)
        · rw [if_pos hc]
          rcases rest with _ | ⟨next, rest'⟩
          · exact he
          · rcases applyDateLine_dateShape re next e with h0 | h0
            · rw [h0]; exact he
            · exact h0
        · rw [if_neg hc]; exact he
      unfold stimTreatStep
      by_cases hc : pyIn treatAnchorL (pyStrip l)
      · rw [if_pos hc]
        rcases rest with _ | ⟨next, rest'⟩
        · exact hd
        · rw [applyTreatLine_date]; exact hd
      · rw [if_neg hc]; exact hd
    simp only [stimLoop]
    by_cases hdet : pyIn detailsAnchorL (pyStrip l)
    · rw [if_pos hdet]
      by_cases hdl : (detailsCollect rest).isEmpty
      · rw [if_pos hdl]; exact hstep d h
      · rw [if_neg hdl]
        simpa using hstep d h
    · rw [if_neg hdet]
      exact ih _ (hstep d h)

theorem mainStimData_dateShape (text : String) :
    (mainStimData text).date_stimulated = none ∨
    ∃ y m dd, (mainStimData text).date_stimulated = some (fmtYMD y m dd) := by
  have h1 := stimLoop_dateShape doc1DateRe (pySplitlines text.data) {} (Or.inl rfl)
  have h2 := stimLoop_dateShape doc2DateRe (pySplitlines text.data) {} (Or.inl rfl)
  unfold mainStimData
  by_cases hc : anyRequiredNone (parse_stimulation_data_doc1 text)
  · rw [if_pos hc]
    unfold merge_stimulation_data
    simp only
    unfold parse_stimulation_data_doc1 parse_stimulation_data_doc2 at *
    rcases h1 with h1 | ⟨y, m, dd, h1⟩
    · rw [h1]
      rcases h2 with h2 | ⟨y, m, dd, h2⟩
      · rw [h2]; exact Or.inl rfl
      · rw [h2]; exact Or.inr ⟨y, m, dd, rfl⟩
    · rw [h1]; exact Or.inr ⟨y, m, dd, rfl⟩
  · rw [if_neg hc]
    unfold parse_stimulation_data_doc1 at *
    exact h1

theorem pyTruthy_iff (x : Option String) :
    pyTruthy x = true ↔ ∃ s, x = some s ∧ s ≠ "" := by
  cases x with
  | none => simp [pyTruthy]
  | some s => simp [pyTruthy]

/-- C2 (amended): a `StimulationRecord` is emitted iff, after the merge,
`date_stimulated` is non-null or `stimulated_formation` is non-null AND
non-empty.  The emission test uses Python truthiness, so a record whose
merged `stimulated_formation` is the empty string (which the doc-1 regex
can capture) with a null date is not emitted even though the field is
non-null. -/
theorem c2_emission_rule (text : String) :
    emitStimulation text = true ↔
      ((mainStimData text).date_stimulated ≠ none ∨
       ∃ s, (mainStimData text).stimulated_formation = some s ∧ s ≠ "") := by
  unfold emitStimulation
  rw [Bool.or_eq_true, pyTruthy_iff, pyTruthy_iff]
  constructor
  · rintro (⟨s, hs, _⟩ | h)
    · left; rw [hs]; simp
    · right; exact h
  · rintro (h | h)
    · left
      rcases mainStimData_dateShape text with h0 | ⟨y, m, dd, h0⟩
      · exact absurd h0 h
      · exact ⟨fmtYMD y m dd, h0, fmtYMD_ne_empty y m dd⟩
    · right; exact h

/-- C2 counterexample: on this document the merged record has a null date
(`13/45/2023` fails `strptime`) and a non-null but empty
`stimulated_formation` (the doc-1 regex captures a lone space, stripped to
`""`), yet no record is emitted — refuting "one with either non-null is
emitted even if every other field is null". -/
theorem c2_counterexample :
    (mainStimData "Date Stimulated\n13/45/2023   1111 2 3 | 4 b").date_stimulated = none ∧
    (mainStimData "Date Stimulated\n13/45/2023   1111 2 3 | 4 b").stimulated_formation =
      some "" ∧
    emitStimulation "Date Stimulated\n13/45/2023   1111 2 3 | 4 b" = false :=
  ⟨by decide, by decide, by decide⟩

/-! ## Claim C5: scalar fields of `parse_well_info` -/

theorem fieldFrom_strip (re : RE) (sec : List Char) (s : String)
    (h : fieldFrom re sec = some s) : pyStripStr s = s := by
  unfold fieldFrom at h
  cases hm : reSearch re sec with
  | none => rw [hm] at h; cases h
  | some caps =>
    rw [hm] at h
    cases h
    simp [pyStripStr, pyStrip_idem]

/-- C5 (amended): every scalar string field of the `WellRecord` returned by
`parse_well_info` is either null or a string equal to its own
`strip()` (no leading or trailing whitespace).  The original claim's
"non-empty string" clause fails: a pattern whose capture is entirely
whitespace yields the empty string (see the counterexample). -/
theorem c5_fields_stripped (text : String) :
    (∀ s, (parse_well_info text).operator = some s → pyStripStr s = s) ∧
    (∀ s, (parse_well_info text).api_number = some s → pyStripStr s = s) ∧
    (∀ s, (parse_well_info text).well_name = some s → pyStripStr s = s) ∧
    (∀ s, (parse_well_info text).enseco_job_number = some s → pyStripStr s = s) ∧
    (∀ s, (parse_well_info text).job_type = some s → pyStripStr s = s) ∧
    (∀ s, (parse_well_info text).county_state = some s → pyStripStr s = s) ∧
    (∀ s, (parse_well_info text).well_shl = some s → pyStripStr s = s) ∧
    (∀ s, (parse_well_info text).datum = some s → pyStripStr s = s) := by
  refine ⟨fun s h => fieldFrom_strip operatorRe (sectionTextOf text.data) s
      (by simpa [parse_well_info] using h),
    fun s h => fieldFrom_strip apiRe (sectionTextOf text.data) s
      (by simpa [parse_well_info] using h),
    fun s h => fieldFrom_strip wellNameRe (sectionTextOf text.data) s
      (by simpa [parse_well_info] using h),
    fun s h => fieldFrom_strip ensecoRe (sectionTextOf text.data) s
      (by simpa [parse_well_info] using h),
    fun s h => fieldFrom_strip jobTypeRe (sectionTextOf text.data) s
      (by simpa [parse_well_info] using h),
    fun s h => fieldFrom_strip countyStateRe (sectionTextOf text.data) s
      (by simpa [parse_well_info] using h),
    fun s h => fieldFrom_strip shlRe (sectionTextOf text.data) s
      (by simpa [parse_well_info] using h),
    fun s h => fieldFrom_strip datumRe (sectionTextOf text.data) s
      (by simpa [parse_well_info] using h)⟩

/-- C5 counterexample: on the input `"Operator "` the operator pattern
`Operator\s*(.+)` captures a lone space (the greedy `\s*` backtracks so
`(.+)` can match), which strips to the empty string — the extraction layer
does produce an empty-string field, refuting "no field is ever the empty
string". -/
theorem c5_counterexample : (parse_well_info "Operator ").operator = some "" := by
  decide

/-- C5 witness: the amended theorem applied at a concrete input. -/
theorem c5_witness :
    (parse_well_info "Well Name: A").well_name = some "A" ∧ pyStripStr "A" = "A" :=
  ⟨by decide, (c5_fields_stripped "Well Name: A").2.2.1 "A" (by decide)⟩

/-! ## Claim C3: `dms_to_decimal` -/

theorem pyFloat_eval_digits (n : Nat) {ds : List Char} (hne : ds ≠ [])
    (h : ∀ c ∈ ds, isDigitB c) (hn : natOfDigits ds = n) :
    pyFloat ds = some (n : ℚ) := by
  rw [pyFloat_digits hne h, hn]

/-- C3 counterexample: the DMS tuple `(0, 0, 0, S)` is matched by the
latitude pattern (e.g. in `"LATITUDE: 0 0 0 S"`), and `dms_to_decimal`
returns exactly `0` for it — an `S`-hemisphere tuple whose result is not
negative, refuting "the sign of the result matches the hemisphere: S and W
give negative". -/
theorem c3_counterexample :
    searchDms "LATITUDE".data hemiNS "LATITUDE: 0 0 0 S".data =
      some ⟨['0'], ['0'], ['0'], 'S'⟩ ∧
    dms_to_decimal ['0'] ['0'] ['0'] 'S' = some 0 ∧ ¬ ((0 : ℚ) < 0) := by
  refine ⟨by decide, ?_, by norm_num⟩
  have h0 : pyFloat ['0'] = some ((0 : Nat) : ℚ) :=
    pyFloat_eval_digits 0 (by simp) (by decide) (by decide)
  have hc : commaToDot ['0'] = ['0'] := by decide
  unfold dms_to_decimal
  rw [hc, h0]
  norm_num

/-- C3 (amended): for every matched DMS tuple, `dms_to_decimal` returns
`deg + min/60 + sec/3600` (comma in the seconds replaced by a dot before
conversion), negated exactly when the upper-cased hemisphere letter is `S`
or `W`; the result is non-positive for `S`/`W` and non-negative for the
other hemispheres, and strictly so whenever the tuple is non-zero (the
all-zero matched tuple maps to `0` under either hemisphere). -/
theorem c3_dms_formula (deg minutes seconds : List Char) (dir : Char)
    (dq mq sq : ℚ)
    (hd : pyFloat deg = some dq) (hm : pyFloat minutes = some mq)
    (hs : pyFloat (commaToDot seconds) = some sq) :
    ∃ v, dms_to_decimal deg minutes seconds dir = some v ∧
      ((dir.toUpper = 'S' ∨ dir.toUpper = 'W') →
          v = -(dq + mq / 60 + sq / 3600) ∧ v ≤ 0) ∧
      (¬(dir.toUpper = 'S' ∨ dir.toUpper = 'W') →
          v = dq + mq / 60 + sq / 3600 ∧ 0 ≤ v) ∧
      (0 < dq + mq / 60 + sq / 3600 →
        ((dir.toUpper = 'S' ∨ dir.toUpper = 'W') → v < 0) ∧
        (¬(dir.toUpper = 'S' ∨ dir.toUpper = 'W') → 0 < v)) := by
  have h0d := pyFloat_nonneg hd
  have h0m := pyFloat_nonneg hm
  have h0s := pyFloat_nonneg hs
  have hnn : (0 : ℚ) ≤ dq + mq / 60 + sq / 3600 := by
    have hm60 : (0 : ℚ) ≤ mq / 60 := by positivity
    have hs3600 : (0 : ℚ) ≤ sq / 3600 := by positivity
    linarith
  unfold dms_to_decimal
  rw [hd, hm, hs]
  by_cases hsw : (dir.toUpper == 'S' || dir.toUpper == 'W') = true
  · have hsw' : dir.toUpper = 'S' ∨ dir.toUpper = 'W' := by
      rcases Bool.or_eq_true .. ▸ hsw with h | h
      · exact Or.inl (by simpa using h)
      · exact Or.inr (by simpa using h)
    refine ⟨-(dq + mq / 60 + sq / 3600), by simp [hsw], ?_, ?_, ?_⟩
    · intro _
      exact ⟨rfl, by linarith⟩
    · intro hn
      exact absurd hsw' hn
    · intro hpos
      exact ⟨fun _ => by linarith, fun hn => absurd hsw' hn⟩
  · have hsw' : ¬(dir.toUpper = 'S' ∨ dir.toUpper = 'W') := by
      intro h
      apply hsw
      rcases h with h | h <;> simp [h]
    refine ⟨dq + mq / 60 + sq / 3600, ?_, ?_, ?_, ?_⟩
    · simp only [Bool.not_eq_true] at hsw
      simp [hsw]
    · intro h
      exact absurd h hsw'
    · intro _
      exact ⟨rfl, hnn⟩
    · intro hpos
      exact ⟨fun h => absurd h hsw', fun _ => hpos⟩

/-- C3 witness: the amended theorem applied at the matched tuple
`(10, 30, "30,5", s)` — the seconds use a comma as decimal separator. -/
theorem c3_witness :
    pyFloat "10".data = some ((10 : Nat) : ℚ) ∧
    pyFloat "30".data = some ((30 : Nat) : ℚ) ∧
    pyFloat (commaToDot "30,5".data) =
      some ((natOfDigits ['3', '0'] : ℚ) + (natOfDigits ['5'] : ℚ) / 10 ^ (1 : Nat)) ∧
    (∃ v, dms_to_decimal "10".data "30".data "30,5".data 's' = some v ∧
      (('s'.toUpper = 'S' ∨ 's'.toUpper = 'W') →
          v = -(((10 : Nat) : ℚ) + ((30 : Nat) : ℚ) / 60 +
            ((natOfDigits ['3', '0'] : ℚ) + (natOfDigits ['5'] : ℚ) / 10 ^ (1 : Nat)) / 3600) ∧
          v ≤ 0) ∧
      (¬('s'.toUpper = 'S' ∨ 's'.toUpper = 'W') →
          v = ((10 : Nat) : ℚ) + ((30 : Nat) : ℚ) / 60 +
            ((natOfDigits ['3', '0'] : ℚ) + (natOfDigits ['5'] : ℚ) / 10 ^ (1 : Nat)) / 3600 ∧
          0 ≤ v) ∧
      (0 < ((10 : Nat) : ℚ) + ((30 : Nat) : ℚ) / 60 +
            ((natOfDigits ['3', '0'] : ℚ) + (natOfDigits ['5'] : ℚ) / 10 ^ (1 : Nat)) / 3600 →
        (('s'.toUpper = 'S' ∨ 's'.toUpper = 'W') → v < 0) ∧
        (¬('s'.toUpper = 'S' ∨ 's'.toUpper = 'W') → 0 < v))) := by
  have hfrac : pyFloat (commaToDot "30,5".data) =
      some ((natOfDigits ['3', '0'] : ℚ) + (natOfDigits ['5'] : ℚ) / 10 ^ (1 : Nat)) := by
    have h1 : commaToDot "30,5".data = ['3', '0'] ++ '.' :: ['5'] := by decide
    rw [h1, pyFloat_digits_frac (by decide) (by decide) (by simp)]
    norm_num
  refine ⟨pyFloat_eval_digits 10 (by simp) (by decide) (by decide),
    pyFloat_eval_digits 30 (by simp) (by decide) (by decide), hfrac,
    c3_dms_formula "10".data "30".data "30,5".data 's' _ _ _
      (pyFloat_eval_digits 10 (by simp) (by decide) (by decide))
      (pyFloat_eval_digits 30 (by simp) (by decide) (by decide)) hfrac⟩

/-! ## Claim C4: bounds of the extracted coordinates -/

theorem matchDmsTail_shape {hemi : Char → Bool} {cs0 : List Char} {t : DmsCaps}
    (h : matchDmsTail hemi cs0 = some t) :
    (t.deg.length ≤ 3 ∧ t.deg ≠ [] ∧ ∀ c ∈ t.deg, isDigitB c) ∧
    (t.min.length ≤ 2 ∧ t.min ≠ [] ∧ ∀ c ∈ t.min, isDigitB c) ∧
    ∃ sd fr, t.sec = sd ++ fr ∧ sd.length ≤ 2 ∧ sd ≠ [] ∧ (∀ c ∈ sd, isDigitB c) ∧
      (fr = [] ∨ ∃ c fd, fr = c :: fd ∧ (c = '.' ∨ c = ',') ∧ fd ≠ [] ∧
        ∀ x ∈ fd, isDigitB x) := by
  unfold matchDmsTail at h
  obtain ⟨cs1, _, h⟩ := firstSome_some h
  obtain ⟨cs2, _, h⟩ := firstSome_some h
  obtain ⟨cs3, _, h⟩ := firstSome_some h
  obtain ⟨dp, hdp, h⟩ := firstSome_some h
  obtain ⟨cs5, _, h⟩ := firstSome_some h
  rcases cs5 with _ | ⟨c, cs6⟩
  · rw [degSepStep] at h
    cases h
  · rw [degSepStep] at h
    by_cases hds : isDegSep c
    · rw [if_pos hds] at h
      obtain ⟨cs7, _, h⟩ := firstSome_some h
      obtain ⟨mp, hmp, h⟩ := firstSome_some h
      obtain ⟨cs8, _, h⟩ := firstSome_some h
      obtain ⟨cs9, _, h⟩ := firstSome_some h
      obtain ⟨cs10, _, h⟩ := firstSome_some h
      obtain ⟨sp, hsp, h⟩ := firstSome_some h
      obtain ⟨fp, hfp, h⟩ := firstSome_some h
      obtain ⟨cs13, _, h⟩ := firstSome_some h
      obtain ⟨cs14, _, h⟩ := firstSome_some h
      rcases cs14 with _ | ⟨hh, rest⟩
      · rw [hemiStep] at h
        cases h
      · rw [hemiStep] at h
        by_cases hh2 : hemi hh
        · rw [if_pos hh2] at h
          cases h
          obtain ⟨d1, d2, d3⟩ := mem_digitAlts hdp
          obtain ⟨m1, m2, m3⟩ := mem_digitAlts hmp
          obtain ⟨s1, s2, s3⟩ := mem_digitAlts hsp
          exact ⟨⟨d1, d2, d3⟩, ⟨m1, m2, m3⟩, sp.1, fp.1, rfl, s1, s2, s3,
            mem_fracAlts hfp⟩
        · rw [if_neg hh2] at h
          cases h
    · rw [if_neg hds] at h
      cases h

theorem searchDms_shape {lit : List Char} {hemi : Char → Bool} {cs : List Char}
    {t : DmsCaps} (h : searchDms lit hemi cs = some t) :
    (t.deg.length ≤ 3 ∧ t.deg ≠ [] ∧ ∀ c ∈ t.deg, isDigitB c) ∧
    (t.min.length ≤ 2 ∧ t.min ≠ [] ∧ ∀ c ∈ t.min, isDigitB c) ∧
    ∃ sd fr, t.sec = sd ++ fr ∧ sd.length ≤ 2 ∧ sd ≠ [] ∧ (∀ c ∈ sd, isDigitB c) ∧
      (fr = [] ∨ ∃ c fd, fr = c :: fd ∧ (c = '.' ∨ c = ',') ∧ fd ≠ [] ∧
        ∀ x ∈ fd, isDigitB x) := by
  induction cs with
  | nil => rw [searchDms] at h; cases h
  | cons c cst ih =>
    rw [searchDms] at h
    rcases hm : (if startsWithCIL (c :: cst) lit then
        matchDmsTail hemi ((c :: cst).drop lit.length) else none) with _ | t'
    · rw [hm] at h
      exact ih h
    · rw [hm] at h
      cases h
      by_cases hsw : startsWithCIL (c :: cst) lit
      · rw [if_pos hsw] at hm
        exact matchDmsTail_shape hm
      · rw [if_neg hsw] at hm
        cases hm

theorem natOfDigits_cast_lt {ds : List Char} {b : Nat} (h : ∀ c ∈ ds, isDigitB c)
    (hlen : ds.length ≤ b) : (natOfDigits ds : ℚ) < 10 ^ b := by
  have h1 : natOfDigits ds < 10 ^ ds.length := natOfDigits_lt h
  have h2 : (10 : Nat) ^ ds.length ≤ 10 ^ b := Nat.pow_le_pow_right (by omega) hlen
  have h3 : natOfDigits ds < 10 ^ b := lt_of_lt_of_le h1 h2
  exact_mod_cast h3

/-- The seconds token of a matched DMS tuple converts (after comma
replacement) to a rational strictly below 100. -/
theorem sec_value_bound {sec : List Char}
    (hshape : ∃ sd fr, sec = sd ++ fr ∧ sd.length ≤ 2 ∧ sd ≠ [] ∧
      (∀ c ∈ sd, isDigitB c) ∧
      (fr = [] ∨ ∃ c fd, fr = c :: fd ∧ (c = '.' ∨ c = ',') ∧ fd ≠ [] ∧
        ∀ x ∈ fd, isDigitB x)) :
    ∃ sq : ℚ, pyFloat (commaToDot sec) = some sq ∧ 0 ≤ sq ∧ sq < 100 := by
  obtain ⟨sd, fr, hsec, hlen, hne, hdig, hfr⟩ := hshape
  subst hsec
  rcases hfr with rfl | ⟨c, fd, rfl, hc, hfdne, hfddig⟩
  · rw [List.append_nil, commaToDot_digits hdig, pyFloat_digits hne hdig]
    refine ⟨_, rfl, by positivity, ?_⟩
    have := natOfDigits_cast_lt hdig hlen
    calc (natOfDigits sd : ℚ) < 10 ^ 2 := this
      _ = 100 := by norm_num
  · have hmap : commaToDot (sd ++ c :: fd) = sd ++ '.' :: fd := by
      have h1 : commaToDot (sd ++ c :: fd) = commaToDot sd ++ commaToDot (c :: fd) :=
        List.map_append _ _ _
      rw [h1, commaToDot_digits hdig]
      congr 1
      show List.map _ (c :: fd) = '.' :: fd
      rw [List.map_cons]
      have hcdot : (if c == ',' then '.' else c) = '.' := by
        rcases hc with rfl | rfl <;> decide
      rw [hcdot]
      exact congrArg (List.cons '.') (commaToDot_digits hfddig)
    rw [hmap, pyFloat_digits_frac hdig hfddig hne]
    refine ⟨_, rfl, by positivity, ?_⟩
    have h1 : (natOfDigits sd : ℚ) < 10 ^ 2 := natOfDigits_cast_lt hdig hlen
    have h2 : (natOfDigits fd : ℚ) < 10 ^ fd.length :=
      natOfDigits_cast_lt hfddig le_rfl
    have h3 : (natOfDigits fd : ℚ) / 10 ^ fd.length < 1 := by
      rw [div_lt_one (by positivity)]
      exact h2
    have h4 : (natOfDigits sd : ℚ) ≤ 99 := by
      have := natOfDigits_lt hdig
      have h5 : natOfDigits sd < 10 ^ 2 :=
        lt_of_lt_of_le this (Nat.pow_le_pow_right (by omega) hlen)
      have h6 : natOfDigits sd ≤ 99 := by omega
      exact_mod_cast h6
    linarith

theorem dms_to_decimal_eval {deg minutes seconds : List Char} (dir : Char)
    {dq mq sq : ℚ} (hd : pyFloat deg = some dq) (hm : pyFloat minutes = some mq)
    (hs : pyFloat (commaToDot seconds) = some sq) :
    dms_to_decimal deg minutes seconds dir =
      some (if (dir.toUpper == 'S' || dir.toUpper == 'W') = true
        then -(dq + mq / 60 + sq / 3600) else dq + mq / 60 + sq / 3600) := by
  unfold dms_to_decimal
  rw [hd, hm, hs]

/-- A successful DMS search yields a coordinate strictly inside
`(-1001, 1001)`: the pattern caps degrees at three digits, minutes at two
and seconds below 100. -/
theorem searchDms_value_bound {lit : List Char} {hemi : Char → Bool}
    {cs : List Char} {t : DmsCaps} {q : ℚ}
    (hs : searchDms lit hemi cs = some t)
    (hv : dms_to_decimal t.deg t.min t.sec t.hemi = some q) :
    -1001 < q ∧ q < 1001 := by
  obtain ⟨⟨hd1, hd2, hd3⟩, ⟨hm1, hm2, hm3⟩, hsec⟩ := searchDms_shape hs
  obtain ⟨sq, hsq, hsq0, hsq100⟩ := sec_value_bound hsec
  rw [dms_to_decimal_eval t.hemi (pyFloat_digits hd2 hd3) (pyFloat_digits hm2 hm3)
    hsq] at hv
  have hmq : (natOfDigits t.min : ℚ) < 100 := by
    have := natOfDigits_cast_lt hm3 hm1
    calc (natOfDigits t.min : ℚ) < 10 ^ 2 := this
      _ = 100 := by norm_num
  have hdq999 : (natOfDigits t.deg : ℚ) ≤ 999 := by
    have h5 : natOfDigits t.deg < 10 ^ 3 :=
      lt_of_lt_of_le (natOfDigits_lt hd3) (Nat.pow_le_pow_right (by omega) hd1)
    have h6 : natOfDigits t.deg ≤ 999 := by
      have h7 : (10 : Nat) ^ 3 = 1000 := by norm_num
      omega
    exact_mod_cast h6
  have hdq0 : (0 : ℚ) ≤ (natOfDigits t.deg : ℚ) := by positivity
  have hmq0 : (0 : ℚ) ≤ (natOfDigits t.min : ℚ) := by positivity
  have h60 : (natOfDigits t.min : ℚ) / 60 < 5 / 3 := by
    rw [div_lt_iff₀ (by norm_num)]
    linarith
  have h3600 : sq / 3600 < 1 / 36 := by
    rw [div_lt_iff₀ (by norm_num)]
    linarith
  have h600 : (0 : ℚ) ≤ (natOfDigits t.min : ℚ) / 60 := by positivity
  have h36000 : (0 : ℚ) ≤ sq / 3600 := by positivity
  by_cases hh : (t.hemi.toUpper == 'S' || t.hemi.toUpper == 'W') = true
  · rw [if_pos hh] at hv
    have hq := Option.some.inj hv
    subst hq
    constructor <;> linarith
  · rw [if_neg hh] at hv
    have hq := Option.some.inj hv
    subst hq
    constructor <;> linarith

/-- C4 counterexample: `"LATITUDE: 179 59 59 N"` is accepted by the
latitude pattern (`\d{1,3}` allows three-digit degrees) and yields
latitude `179°59'59" = 647999/3600 ≈ 180.0`, far outside `[-90, 90]` —
refuting the claimed invariant. -/
theorem c4_counterexample :
    (parse_well_info "LATITUDE: 179 59 59 N").latitude = some (647999 / 3600 : ℚ) ∧
    (90 : ℚ) < 647999 / 3600 := by
  constructor
  · have hsec : sectionTextOf "LATITUDE: 179 59 59 N".data =
        "LATITUDE: 179 59 59 N".data := by decide
    have hsrch : searchDms "LATITUDE".data hemiNS "LATITUDE: 179 59 59 N".data =
        some ⟨"179".data, "59".data, "59".data, 'N'⟩ := by decide
    have hd : pyFloat "179".data = some ((179 : Nat) : ℚ) :=
      pyFloat_eval_digits 179 (by simp) (by decide) (by decide)
    have hm : pyFloat "59".data = some ((59 : Nat) : ℚ) :=
      pyFloat_eval_digits 59 (by simp) (by decide) (by decide)
    have hss : pyFloat (commaToDot "59".data) = some ((59 : Nat) : ℚ) := by
      rw [show commaToDot "59".data = "59".data from by decide]
      exact hm
    show (match searchDms "LATITUDE".data hemiNS
        (sectionTextOf "LATITUDE: 179 59 59 N".data) with
      | some t => dms_to_decimal t.deg t.min t.sec t.hemi
      | none => none) = some (647999 / 3600 : ℚ)
    rw [hsec, hsrch]
    show dms_to_decimal "179".data "59".data "59".data 'N' = some (647999 / 3600 : ℚ)
    rw [dms_to_decimal_eval 'N' hd hm hss]
    rw [if_neg (by decide)]
    norm_num
  · norm_num

/-- C4 (amended): whenever `parse_well_info` sets a coordinate it lies
strictly inside `(-1001, 1001)` — the bound the patterns actually enforce
(up to three degree digits, two minute digits, seconds below 100); the
claimed `[-90, 90]` / `[-180, 180]` invariants do not hold (see the
counterexample). -/
theorem c4_coordinate_bounds (text : String) :
    (∀ q : ℚ, (parse_well_info text).latitude = some q → -1001 < q ∧ q < 1001) ∧
    (∀ q : ℚ, (parse_well_info text).longitude = some q → -1001 < q ∧ q < 1001) := by
  constructor
  · intro q h
    simp only [parse_well_info] at h
    rcases hs : searchDms "LATITUDE".data hemiNS (sectionTextOf text.data) with _ | t
    · rw [hs] at h
      cases h
    · rw [hs] at h
      exact searchDms_value_bound hs h
  · intro q h
    simp only [parse_well_info] at h
    rcases hs : searchDms "LONGITUDE".data hemiEW (sectionTextOf text.data) with _ | t
    · rw [hs] at h
      cases h
    · rw [hs] at h
      exact searchDms_value_bound hs h

/-- C4 witness: the amended bound applied at a concrete document. -/
theorem c4_witness :
    (parse_well_info "LATITUDE: 47 35 31 N").latitude =
      some (((47 : Nat) : ℚ) + ((35 : Nat) : ℚ) / 60 + ((31 : Nat) : ℚ) / 3600) ∧
    (-1001 : ℚ) < ((47 : Nat) : ℚ) + ((35 : Nat) : ℚ) / 60 + ((31 : Nat) : ℚ) / 3600 ∧
    (((47 : Nat) : ℚ) + ((35 : Nat) : ℚ) / 60 + ((31 : Nat) : ℚ) / 3600) < 1001 := by
  have hsec : sectionTextOf "LATITUDE: 47 35 31 N".data =
      "LATITUDE: 47 35 31 N".data := by decide
  have hsrch : searchDms "LATITUDE".data hemiNS "LATITUDE: 47 35 31 N".data =
      some ⟨"47".data, "35".data, "31".data, 'N'⟩ := by decide
  have hss : pyFloat (commaToDot "31".data) = some ((31 : Nat) : ℚ) := by
    rw [show commaToDot "31".data = "31".data from by decide]
    exact pyFloat_eval_digits 31 (by simp) (by decide) (by decide)
  have hval : (parse_well_info "LATITUDE: 47 35 31 N").latitude =
      some (((47 : Nat) : ℚ) + ((35 : Nat) : ℚ) / 60 + ((31 : Nat) : ℚ) / 3600) := by
    show (match searchDms "LATITUDE".data hemiNS
        (sectionTextOf "LATITUDE: 47 35 31 N".data) with
      | some t => dms_to_decimal t.deg t.min t.sec t.hemi
      | none => none) =
      some (((47 : Nat) : ℚ) + ((35 : Nat) : ℚ) / 60 + ((31 : Nat) : ℚ) / 3600)
    rw [hsec, hsrch]
    show dms_to_decimal "47".data "35".data "31".data 'N' =
      some (((47 : Nat) : ℚ) + ((35 : Nat) : ℚ) / 60 + ((31 : Nat) : ℚ) / 3600)
    rw [dms_to_decimal_eval 'N' (pyFloat_eval_digits 47 (by simp) (by decide) (by decide))
      (pyFloat_eval_digits 35 (by simp) (by decide) (by decide)) hss]
    rw [if_neg (by decide)]
  have hb := (c4_coordinate_bounds "LATITUDE: 47 35 31 N").1 _ hval
  exact ⟨hval, hb.1, hb.2⟩

/-! ## Claim C8: block-stat suffix scaling -/

/-- C8.  Suffix scaling is exact and applied to the upper-cased (hence
case-insensitively matched) suffix: a matched entry's quantity is its
numeric magnitude times `suffixScale` of the upper-cased suffix group,
where `K ↦ 1000`, `M ↦ 1000000`, `B ↦ 1000000000` and the empty suffix
`↦ 1`; in particular `"2.5M Barrels of oil in March 2023"` yields quantity
`2500000`, unit `"BARRELS"`, month `"March"`, year `2023`. -/
theorem c8_suffix_scaling :
    (∀ (e : List Char) (caps : Caps) (q : ℚ),
      reSearch blockRe (pyStrip e) = some caps →
      pyFloat (groupL (pyStrip e) caps 1) = some q →
      processEntry e = .ok (some
        { quantity := q * suffixScale ⟨pyUpperL (groupL (pyStrip e) caps 2)⟩
          unit := ⟨pyUpperL (groupL (pyStrip e) caps 3)⟩
          month := ⟨groupL (pyStrip e) caps 4⟩
          year := natOfDigits (groupL (pyStrip e) caps 5) })) ∧
    suffixScale "K" = 1000 ∧ suffixScale "M" = 1000000 ∧
    suffixScale "B" = 1000000000 ∧ suffixScale "" = 1 ∧
    process_block_stats "2.5M Barrels of oil in March 2023" =
      .ok ([{ quantity := 2500000, unit := "BARRELS", month := "March", year := 2023 }],
        []) := by
  have huni : ∀ (e : List Char) (caps : Caps) (q : ℚ),
      reSearch blockRe (pyStrip e) = some caps →
      pyFloat (groupL (pyStrip e) caps 1) = some q →
      processEntry e = .ok (some
        { quantity := q * suffixScale ⟨pyUpperL (groupL (pyStrip e) caps 2)⟩
          unit := ⟨pyUpperL (groupL (pyStrip e) caps 3)⟩
          month := ⟨groupL (pyStrip e) caps 4⟩
          year := natOfDigits (groupL (pyStrip e) caps 5) }) := by
    intro e caps q hsearch hfloat
    unfold processEntry
    rw [hsearch]
    show processMatched (pyStrip e) caps = _
    unfold processMatched
    rw [hfloat]
  refine ⟨huni, rfl, rfl, rfl, rfl, ?_⟩
  have hstrip : pyStrip "2.5M Barrels of oil in March 2023".data =
      "2.5M Barrels of oil in March 2023".data := by decide
  have hsearch : reSearch blockRe "2.5M Barrels of oil in March 2023".data =
      some [(5, 29, 33), (4, 23, 28), (3, 5, 12), (2, 3, 4), (1, 0, 3)] := by decide
  have hfloat : pyFloat (groupL "2.5M Barrels of oil in March 2023".data
      [(5, 29, 33), (4, 23, 28), (3, 5, 12), (2, 3, 4), (1, 0, 3)] 1) =
      some ((natOfDigits ['2'] : ℚ) + (natOfDigits ['5'] : ℚ) / 10 ^ (1 : Nat)) := by
    rw [show groupL "2.5M Barrels of oil in March 2023".data
      [(5, 29, 33), (4, 23, 28), (3, 5, 12), (2, 3, 4), (1, 0, 3)] 1 =
      ['2'] ++ '.' :: ['5'] from by decide]
    rw [pyFloat_digits_frac (by decide) (by decide) (by simp)]
    norm_num
  have hentry := huni "2.5M Barrels of oil in March 2023".data
    [(5, 29, 33), (4, 23, 28), (3, 5, 12), (2, 3, 4), (1, 0, 3)] _
    (hstrip ▸ hsearch) (by rw [hstrip]; exact hfloat)
  rw [hstrip] at hentry
  have hq : ((natOfDigits ['2'] : ℚ) + (natOfDigits ['5'] : ℚ) / 10 ^ (1 : Nat)) *
      suffixScale ⟨pyUpperL (groupL "2.5M Barrels of oil in March 2023".data
        [(5, 29, 33), (4, 23, 28), (3, 5, 12), (2, 3, 4), (1, 0, 3)] 2)⟩ =
      2500000 := by
    rw [show (⟨pyUpperL (groupL "2.5M Barrels of oil in March 2023".data
      [(5, 29, 33), (4, 23, 28), (3, 5, 12), (2, 3, 4), (1, 0, 3)] 2)⟩ : String) = "M"
      from by decide]
    rw [show suffixScale "M" = 1000000 from rfl]
    have h2 : natOfDigits ['2'] = 2 := by decide
    have h5 : natOfDigits ['5'] = 5 := by decide
    rw [h2, h5]
    norm_num
  unfold process_block_stats
  rw [show pySplitComma "2.5M Barrels of oil in March 2023".data =
    ["2.5M Barrels of oil in March 2023".data] from by decide]
  unfold processEntriesAux
  rw [hentry, hq]
  rw [show (⟨pyUpperL (groupL "2.5M Barrels of oil in March 2023".data
    [(5, 29, 33), (4, 23, 28), (3, 5, 12), (2, 3, 4), (1, 0, 3)] 3)⟩ : String) =
    "BARRELS" from by decide]
  rw [show (⟨groupL "2.5M Barrels of oil in March 2023".data
    [(5, 29, 33), (4, 23, 28), (3, 5, 12), (2, 3, 4), (1, 0, 3)] 4⟩ : String) =
    "March" from by decide]
  rw [show natOfDigits (groupL "2.5M Barrels of oil in March 2023".data
    [(5, 29, 33), (4, 23, 28), (3, 5, 12), (2, 3, 4), (1, 0, 3)] 5) = 2023
    from by decide]
  rfl

/-- C8 witness: the universal part applied at the concrete entry
`"4K MCF of gas in May 2020"`. -/
theorem c8_witness :
    reSearch blockRe (pyStrip "4K MCF of gas in May 2020".data) =
      some [(5, 21, 25), (4, 17, 20), (3, 3, 6), (2, 1, 2), (1, 0, 1)] ∧
    pyFloat (groupL (pyStrip "4K MCF of gas in May 2020".data)
      [(5, 21, 25), (4, 17, 20), (3, 3, 6), (2, 1, 2), (1, 0, 1)] 1) =
      some ((4 : Nat) : ℚ) ∧
    processEntry "4K MCF of gas in May 2020".data = .ok (some
      { quantity := ((4 : Nat) : ℚ) * suffixScale
          ⟨pyUpperL (groupL (pyStrip "4K MCF of gas in May 2020".data)
            [(5, 21, 25), (4, 17, 20), (3, 3, 6), (2, 1, 2), (1, 0, 1)] 2)⟩
        unit := ⟨pyUpperL (groupL (pyStrip "4K MCF of gas in May 2020".data)
          [(5, 21, 25), (4, 17, 20), (3, 3, 6), (2, 1, 2), (1, 0, 1)] 3)⟩
        month := ⟨groupL (pyStrip "4K MCF of gas in May 2020".data)
          [(5, 21, 25), (4, 17, 20), (3, 3, 6), (2, 1, 2), (1, 0, 1)] 4⟩
        year := natOfDigits (groupL (pyStrip "4K MCF of gas in May 2020".data)
          [(5, 21, 25), (4, 17, 20), (3, 3, 6), (2, 1, 2), (1, 0, 1)] 5) }) := by
  have h1 : reSearch blockRe (pyStrip "4K MCF of gas in May 2020".data) =
      some [(5, 21, 25), (4, 17, 20), (3, 3, 6), (2, 1, 2), (1, 0, 1)] := by decide
  have h2 : pyFloat (groupL (pyStrip "4K MCF of gas in May 2020".data)
      [(5, 21, 25), (4, 17, 20), (3, 3, 6), (2, 1, 2), (1, 0, 1)] 1) =
      some ((4 : Nat) : ℚ) := by
    rw [show groupL (pyStrip "4K MCF of gas in May 2020".data)
      [(5, 21, 25), (4, 17, 20), (3, 3, 6), (2, 1, 2), (1, 0, 1)] 1 = ['4']
      from by decide]
    exact pyFloat_eval_digits 4 (by simp) (by decide) (by decide)
  exact ⟨h1, h2, c8_suffix_scaling.1 "4K MCF of gas in May 2020".data _ _ h1 h2⟩

/-! ## Claim C9: totality of block-stat parsing -/

/-- C9 counterexample: the entry `"1.2.3 MCF of gas in January 2024"`
matches the pattern (`[\d\.]+` accepts multi-dot tokens) but
`float("1.2.3")` raises an uncaught `ValueError`, so the parser raises —
refuting "no entry ever causes the parser to raise an exception". -/
theorem c9_counterexample :
    process_block_stats "1.2.3 MCF of gas in January 2024" = .error () := by
  have hentry : processEntry "1.2.3 MCF of gas in January 2024".data = .error () := by
    unfold processEntry
    rw [show reSearch blockRe (pyStrip "1.2.3 MCF of gas in January 2024".data) =
      some [(5, 28, 32), (4, 20, 27), (3, 6, 9), (2, 6, 6), (1, 0, 5)] from by decide]
    show processMatched (pyStrip "1.2.3 MCF of gas in January 2024".data)
      [(5, 28, 32), (4, 20, 27), (3, 6, 9), (2, 6, 6), (1, 0, 5)] = .error ()
    unfold processMatched
    rw [show pyFloat (groupL (pyStrip "1.2.3 MCF of gas in January 2024".data)
      [(5, 28, 32), (4, 20, 27), (3, 6, 9), (2, 6, 6), (1, 0, 5)] 1) = none
      from by decide]
  unfold process_block_stats
  rw [show pySplitComma "1.2.3 MCF of gas in January 2024".data =
    ["1.2.3 MCF of gas in January 2024".data] from by decide]
  unfold processEntriesAux
  rw [hentry]

theorem processEntriesAux_error_iff (l : List (List Char)) :
    processEntriesAux l = .error () ↔ ∃ e ∈ l, processEntry e = .error () := by
  induction l with
  | nil => simp [processEntriesAux]
  | cons e rest ih =>
    rw [processEntriesAux]
    rcases he : processEntry e with u | ob
    · constructor
      · intro _
        exact ⟨e, List.mem_cons_self _ _, by rw [he]⟩
      · intro _
        rfl
    · rcases ob with _ | b
      · rcases hr : processEntriesAux rest with u' | p
        · constructor
          · intro _
            obtain ⟨e', he', hee⟩ := ih.mp (by rw [hr])
            exact ⟨e', List.mem_cons_of_mem _ he', hee⟩
          · intro _
            rfl
        · obtain ⟨es, ws⟩ := p
          constructor
          · intro h
            cases h
          · rintro ⟨e', he', hee⟩
            rcases List.mem_cons.mp he' with rfl | he''
            · rw [he] at hee
              cases hee
            · have hcontra : processEntriesAux rest = .error () :=
                ih.mpr ⟨e', he'', hee⟩
              rw [hr] at hcontra
              cases hcontra
      · rcases hr : processEntriesAux rest with u' | p
        · constructor
          · intro _
            obtain ⟨e', he', hee⟩ := ih.mp (by rw [hr])
            exact ⟨e', List.mem_cons_of_mem _ he', hee⟩
          · intro _
            rfl
        · obtain ⟨es, ws⟩ := p
          constructor
          · intro h
            cases h
          · rintro ⟨e', he', hee⟩
            rcases List.mem_cons.mp he' with rfl | he''
            · rw [he] at hee
              cases hee
            · have hcontra : processEntriesAux rest = .error () :=
                ih.mpr ⟨e', he'', hee⟩
              rw [hr] at hcontra
              cases hcontra

/-- C9 (amended): the entry loop is total except for the float conversion:
an unmatched entry is skipped with a warning (never an exception), a
matched entry with a valid magnitude produces one row, and the call raises
exactly when some entry matches the pattern with a magnitude token that is
not a valid float literal (more than one dot, as in `"1.2.3"`). -/
theorem c9_partial_totality (blockStats : String) :
    (process_block_stats blockStats = .error () ↔
      ∃ e ∈ pySplitComma blockStats.data, processEntry e = .error ()) ∧
    (∀ e : List Char, processEntry e = .error () ↔
      ∃ caps, reSearch blockRe (pyStrip e) = some caps ∧
        pyFloat (groupL (pyStrip e) caps 1) = none) ∧
    (∀ e : List Char, reSearch blockRe (pyStrip e) = none →
      processEntry e = .ok none) := by
  refine ⟨processEntriesAux_error_iff _, ?_, ?_⟩
  · intro e
    unfold processEntry
    rcases hs : reSearch blockRe (pyStrip e) with _ | caps
    · constructor
      · intro h
        cases h
      · rintro ⟨caps, hc, _⟩
        cases hc
    · show processMatched (pyStrip e) caps = .error () ↔ _
      unfold processMatched
      rcases hf : pyFloat (groupL (pyStrip e) caps 1) with _ | q
      · exact ⟨fun _ => ⟨caps, rfl, hf⟩, fun _ => rfl⟩
      · constructor
        · intro h
          cases h
        · rintro ⟨caps', hc, hff⟩
          cases hc
          rw [hff] at hf
          cases hf
  · intro e hs
    unfold processEntry
    rw [hs]

/-- C9 witness: the amended characterisation applied at concrete entries. -/
theorem c9_witness :
    reSearch blockRe (pyStrip "garbage".data) = none ∧
    processEntry "garbage".data = .ok none ∧
    (process_block_stats "garbage" = .error () ↔
      ∃ e ∈ pySplitComma "garbage".data, processEntry e = .error ()) :=
  ⟨by decide, (c9_partial_totality "garbage").2.2 "garbage".data (by decide),
    (c9_partial_totality "garbage").1⟩

/-! ## Claim C7: page-text acquisition -/

theorem extractPagesAux_stops (minChars : Nat) (pre : List PdfPage) :
    ∀ (n : Nat) (p : PdfPage) (rest : List PdfPage),
    (∀ q ∈ pre, pageOk minChars q = true) → pageOk minChars p = false →
    extractPagesAux minChars n (pre ++ p :: rest) = extractPagesAux minChars n pre := by
  induction pre with
  | nil =>
    intro n p rest _ hp
    obtain ⟨pn, pi, po⟩ := p
    rw [List.nil_append]
    show extractPagesAux minChars n (⟨pn, pi, po⟩ :: rest) = ("", [])
    rw [extractPagesAux]
    unfold pageOk at hp
    rcases pn with u | t0
    · rfl
    · simp only [] at hp ⊢
      by_cases hshort : (pyStrip t0.data).length < minChars
      · rw [if_pos hshort] at hp ⊢
        rcases pi with u | b
        · rfl
        · simp only [] at hp ⊢
          rcases b with _ | _
          · simp at hp
          · rw [if_pos rfl] at hp ⊢
            rcases po with u | o
            · rfl
            · simp at hp
      · rw [if_neg hshort] at hp
        simp at hp
  | cons q pre' ih =>
    intro n p rest hpre hp
    have hq : pageOk minChars q = true := hpre q (List.mem_cons_self _ _)
    have hpre' : ∀ r ∈ pre', pageOk minChars r = true :=
      fun r hr => hpre r (List.mem_cons_of_mem _ hr)
    obtain ⟨qn, qi, qo⟩ := q
    unfold pageOk at hq
    rw [List.cons_append, extractPagesAux, extractPagesAux]
    rcases qn with u | t0
    · simp at hq
    · simp only [] at hq ⊢
      by_cases hshort : (pyStrip t0.data).length < minChars
      · rw [if_pos hshort] at hq
        simp only [if_pos hshort]
        rcases qi with u | b
        · simp at hq
        · simp only [] at hq ⊢
          rcases b with _ | _
          · simp only [if_neg (by simp : ¬ (false = true))] at hq ⊢
            rw [ih (n + 1) p rest hpre' hp]
          · rw [if_pos rfl] at hq ⊢
            rcases qo with u | o
            · simp at hq
            · rw [ih (n + 1) p rest hpre' hp]
              simp
      · simp only [if_neg hshort]
        rw [ih (n + 1) p rest hpre' hp]

theorem extractPagesAux_trace_ge (minChars : Nat) (pages : List PdfPage) :
    ∀ (n k : Nat), k ∈ (extractPagesAux minChars n pages).2 → n ≤ k := by
  induction pages with
  | nil =>
    intro n k hk
    simp [extractPagesAux] at hk
  | cons p rest ih =>
    intro n k hk
    obtain ⟨pn, pi, po⟩ := p
    rw [extractPagesAux] at hk
    rcases pn with u | t0
    · simp at hk
    · simp only [] at hk
      by_cases hshort : (pyStrip t0.data).length < minChars
      · rw [if_pos hshort] at hk
        rcases pi with u | b
        · simp at hk
        · simp only [] at hk
          rcases b with _ | _
          · simp only [if_neg (by simp : ¬ (false = true))] at hk
            rcases List.mem_cons.mp hk with rfl | hk'
            · exact le_refl _
            · exact Nat.le_of_succ_le (ih (n + 1) k hk')
          · rw [if_pos rfl] at hk
            rcases po with u | o
            · simp at hk
            · rcases List.mem_cons.mp hk with rfl | hk'
              · exact le_refl _
              · exact Nat.le_of_succ_le (ih (n + 1) k hk')
      · rw [if_neg hshort] at hk
        simp only [] at hk
        exact Nat.le_of_succ_le (ih (n + 1) k hk)

theorem extractPagesAux_no_ocr (minChars : Nat) (pages : List PdfPage) :
    ∀ (n k : Nat) (p : PdfPage) (t : String),
    pages.get? k = some p → p.native = .ok t → minChars ≤ (pyStrip t.data).length →
    (n + k) ∉ (extractPagesAux minChars n pages).2 := by
  induction pages with
  | nil =>
    intro n k p t hget
    simp at hget
  | cons p0 rest ih =>
    intro n k p t hget hnat hlen hmem
    rcases k with _ | k'
    · have hp0 : p0 = p := by simpa using hget
      subst hp0
      obtain ⟨pn, pi, po⟩ := p0
      have hnat' : pn = .ok t := hnat
      subst hnat'
      rw [extractPagesAux] at hmem
      simp only [] at hmem
      have hns : ¬ ((pyStrip t.data).length < minChars) := by omega
      rw [if_neg hns] at hmem
      simp only [] at hmem
      have := extractPagesAux_trace_ge minChars rest (n + 1) (n + 0) hmem
      omega
    · have hget' : rest.get? k' = some p := by simpa using hget
      obtain ⟨pn, pi, po⟩ := p0
      rw [extractPagesAux] at hmem
      rcases pn with u | t0
      · simp at hmem
      · simp only [] at hmem
        by_cases hshort : (pyStrip t0.data).length < minChars
        · rw [if_pos hshort] at hmem
          rcases pi with u | b
          · simp at hmem
          · simp only [] at hmem
            rcases b with _ | _
            · simp only [if_neg (by simp : ¬ (false = true))] at hmem
              rcases List.mem_cons.mp hmem with he | hmem'
              · omega
              · exact ih (n + 1) k' p t hget' hnat hlen (by
                  have heq : n + 1 + k' = n + (k' + 1) := by omega
                  rw [heq]
                  exact hmem')
            · rw [if_pos rfl] at hmem
              rcases po with u | o
              · simp at hmem
              · rcases List.mem_cons.mp hmem with he | hmem'
                · omega
                · exact ih (n + 1) k' p t hget' hnat hlen (by
                    have heq : n + 1 + k' = n + (k' + 1) := by omega
                    rw [heq]
                    exact hmem')
        · rw [if_neg hshort] at hmem
          simp only [] at hmem
          exact ih (n + 1) k' p t hget' hnat hlen (by
            have heq : n + 1 + k' = n + (k' + 1) := by omega
            rw [heq]
            exact hmem)

/-- C7 counterexample: page 1's native extraction raises and page 2 holds
40 characters of native text, yet the document text is empty (page 2's
text is lost — the `try` wraps the whole loop, so the exception aborts
every remaining page) and the OCR fallback never ran for page 1 — refuting
"that page is treated as having zero native text and the OCR path is
forced for it" and "the document still produces the text of its other
pages". -/
theorem c7_counterexample :
    (30 : Nat) ≤ (pyStrip "0123456789012345678901234567890123456789".data).length ∧
    extract_text_from_pdf [pageFail, pageLong] = ("", []) :=
  ⟨by decide, rfl⟩

/-- C7 (amended): if the per-page step of any page raises (native
extraction, image conversion or OCR), processing stops there: the document
yields exactly the text of the pages before the failing one and no OCR runs
for it or any later page; and the OCR fallback never runs for a page whose
trimmed native text length reaches the threshold. -/
theorem c7_acquisition_behaviour (minChars : Nat) :
    (∀ (n : Nat) (pre : List PdfPage) (p : PdfPage) (rest : List PdfPage),
      (∀ q ∈ pre, pageOk minChars q = true) → pageOk minChars p = false →
      extractPagesAux minChars n (pre ++ p :: rest) = extractPagesAux minChars n pre) ∧
    (∀ (pages : List PdfPage) (k : Nat) (p : PdfPage) (t : String),
      pages.get? k = some p → p.native = .ok t → minChars ≤ (pyStrip t.data).length →
      (1 + k) ∉ (extract_text_from_pdf pages minChars).2) := by
  constructor
  · intro n pre p rest h1 h2
    exact extractPagesAux_stops minChars pre n p rest h1 h2
  · intro pages k p t h1 h2 h3
    exact extractPagesAux_no_ocr minChars pages 1 k p t h1 h2 h3

/-- C7 witness: the amended behaviour applied to a concrete two-page
document whose second page raises during native extraction. -/
theorem c7_witness :
    (∀ q ∈ [pageLong], pageOk 30 q = true) ∧
    pageOk 30 pageFail = false ∧
    extractPagesAux 30 1 ([pageLong] ++ [pageFail]) =
      extractPagesAux 30 1 [pageLong] ∧
    [pageLong].get? 0 = some pageLong ∧
    (1 + 0) ∉ (extract_text_from_pdf [pageLong] 30).2 := by
  refine ⟨?_, ?_, ?_, ?_, ?_⟩
  · intro q hq
    rcases List.mem_singleton.mp hq with rfl
    decide
  · decide
  · exact (c7_acquisition_behaviour 30).1 1 [pageLong] pageFail []
      (by
        intro q hq
        rcases List.mem_singleton.mp hq with rfl
        decide)
      (by decide)
  · rfl
  · exact (c7_acquisition_behaviour 30).2 [pageLong] 0 pageLong
      "0123456789012345678901234567890123456789" rfl rfl (by decide)

/-! ## Claim C6: idempotence of the text normaliser -/

theorem mem_colonSub {c : Char} : ∀ {l : List Char}, c ∈ colonSub l → c ∈ l := by
  intro l
  induction l using colonSub.induct with
  | case1 => intro h; simp [colonSub] at h
  | case2 rest ih =>
    intro h
    rw [colonSub] at h
    exact List.mem_cons_of_mem _ ((List.dropWhile_suffix _).sublist.subset (ih h))
  | case3 c0 rest hne ih =>
    intro h
    rw [colonSub] at h
    · rcases List.mem_cons.mp h with rfl | h'
      · exact List.mem_cons_self _ _
      · exact List.mem_cons_of_mem _ (ih h')
    · exact hne

theorem colonSub_id : ∀ {l : List Char}, (∀ c ∈ l, c ≠ ':') → colonSub l = l := by
  intro l
  induction l using colonSub.induct with
  | case1 => intro _; rw [colonSub]
  | case2 rest ih =>
    intro h
    exact absurd rfl (h ':' (List.mem_cons_self _ _))
  | case3 c0 rest hne ih =>
    intro h
    rw [colonSub]
    · rw [ih (fun c hc => h c (List.mem_cons_of_mem _ hc))]
    · exact hne

theorem bsGetText_id : ∀ {l : List Char}, (∀ c ∈ l, c ≠ '<') → bsGetText l = l := by
  intro l
  induction l using bsGetText.induct with
  | case1 => intro _; rw [bsGetText]
  | case2 rest ih =>
    intro h
    exact absurd rfl (h '<' (List.mem_cons_self _ _))
  | case3 c0 rest hne ih =>
    intro h
    rw [bsGetText]
    · rw [ih (fun c hc => h c (List.mem_cons_of_mem _ hc))]
    · exact hne

theorem mem_wsCollapse {c : Char} :
    ∀ {l : List Char}, c ∈ wsCollapse l → c = ' ' ∨ (c ∈ l ∧ isSpaceB c = false) := by
  intro l
  induction l using wsCollapse.induct with
  | case1 => intro h; simp [wsCollapse] at h
  | case2 c0 rest hws ih =>
    intro h
    rw [wsCollapse, if_pos hws] at h
    rcases List.mem_cons.mp h with rfl | h'
    · exact Or.inl rfl
    · rcases ih h' with he | ⟨hm, hns⟩
      · exact Or.inl he
      · exact Or.inr ⟨List.mem_cons_of_mem _ ((List.dropWhile_suffix _).sublist.subset hm), hns⟩
  | case3 c0 rest hws ih =>
    intro h
    rw [wsCollapse, if_neg hws] at h
    rcases List.mem_cons.mp h with rfl | h'
    · exact Or.inr ⟨List.mem_cons_self _ _, Bool.of_not_eq_true hws⟩
    · rcases ih h' with he | ⟨hm, hns⟩
      · exact Or.inl he
      · exact Or.inr ⟨List.mem_cons_of_mem _ hm, hns⟩

theorem noWsRun_tail {c : Char} {l : List Char} (h : noWsRun (c :: l) = true) :
    noWsRun l = true := by
  cases l with
  | nil => rfl
  | cons d t =>
    rw [noWsRun] at h
    simp only [Bool.and_eq_true] at h
    exact h.2

theorem noWsRun_append_left {m : List Char} :
    ∀ {a : List Char}, noWsRun (a ++ m) = true → noWsRun m = true := by
  intro a
  induction a with
  | nil => intro h; simpa using h
  | cons c a' ih =>
    intro h
    exact ih (noWsRun_tail h)

theorem noWsRun_append_right {b : List Char} :
    ∀ {m : List Char}, noWsRun (m ++ b) = true → noWsRun m = true := by
  intro m
  induction m with
  | nil => intro _; rfl
  | cons c m' ih =>
    intro h
    cases m' with
    | nil => rfl
    | cons d t =>
      rw [List.cons_append, List.cons_append, noWsRun] at h
      simp only [Bool.and_eq_true] at h
      rw [noWsRun]
      simp only [Bool.and_eq_true]
      exact ⟨h.1, ih (by rw [List.cons_append]; exact h.2)⟩

theorem dropWhile_head_false {p : Char → Bool} {c : Char} {t : List Char} :
    ∀ {l : List Char}, l.dropWhile p = c :: t → p c = false := by
  intro l
  induction l with
  | nil => intro h; simp at h
  | cons e l' ih =>
    intro h
    rw [List.dropWhile_cons] at h
    by_cases hp : p e = true
    · rw [if_pos hp] at h
      exact ih h
    · rw [if_neg hp] at h
      cases h
      exact Bool.of_not_eq_true hp

theorem wsCollapse_cons_not (c : Char) (rest : List Char) (h : isSpaceB c = false) :
    wsCollapse (c :: rest) = c :: wsCollapse rest := by
  rw [wsCollapse, if_neg (by simp [h])]

theorem noWsRun_wsCollapse : ∀ {l : List Char}, noWsRun (wsCollapse l) = true := by
  intro l
  induction l using wsCollapse.induct with
  | case1 => rw [wsCollapse]; rfl
  | case2 c0 rest hws ih =>
    rw [wsCollapse, if_pos hws]
    rcases hd : wsCollapse (rest.dropWhile isSpaceB) with _ | ⟨d, t⟩
    · rfl
    · rw [noWsRun]
      simp only [Bool.and_eq_true]
      constructor
      · rcases he : rest.dropWhile isSpaceB with _ | ⟨e, m⟩
        · rw [he, wsCollapse] at hd
          exact absurd hd (by simp)
        · have hef : isSpaceB e = false := dropWhile_head_false he
          rw [he, wsCollapse_cons_not e m hef] at hd
          cases hd
          simp [hef]
      · rw [hd] at ih
        exact ih
  | case3 c0 rest hws ih =>
    rw [wsCollapse, if_neg hws]
    rcases hd : wsCollapse rest with _ | ⟨d, t⟩
    · rfl
    · rw [noWsRun]
      simp only [Bool.and_eq_true]
      constructor
      · simp [Bool.of_not_eq_true hws]
      · rw [hd] at ih
        exact ih

theorem wsCollapse_eq_self :
    ∀ {l : List Char}, noWsRun l = true → (∀ c ∈ l, isSpaceB c = true → c = ' ') →
    wsCollapse l = l := by
  intro l
  induction l with
  | nil => intro _ _; rw [wsCollapse]
  | cons c rest ih =>
    intro hr ho
    by_cases hws : isSpaceB c = true
    · have hc : c = ' ' := ho c (List.mem_cons_self _ _) hws
      rw [wsCollapse, if_pos hws]
      cases rest with
      | nil => rw [List.dropWhile_nil, wsCollapse, hc]
      | cons d t =>
        rw [noWsRun] at hr
        simp only [Bool.and_eq_true] at hr
        have hd : isSpaceB d = false := by
          have h1 := hr.1
          rw [hws] at h1
          simpa using h1
        rw [List.dropWhile_cons, if_neg (by simp [hd])]
        rw [ih hr.2 (fun e he hse => ho e (List.mem_cons_of_mem _ he) hse), hc]
    · rw [wsCollapse, if_neg hws]
      rw [ih (noWsRun_tail hr) (fun e he hse => ho e (List.mem_cons_of_mem _ he) hse)]

theorem mem_pyStrip {c : Char} {l : List Char} (h : c ∈ pyStrip l) : c ∈ l := by
  rw [pyStrip] at h
  rw [List.mem_reverse] at h
  have h1 := (List.dropWhile_suffix isSpaceB).sublist.subset h
  rw [List.mem_reverse] at h1
  exact (List.dropWhile_suffix isSpaceB).sublist.subset h1

theorem pyStrip_decomp (l : List Char) :
    ∃ a b, l.dropWhile isSpaceB = pyStrip l ++ b ∧ l = a ++ pyStrip l ++ b := by
  obtain ⟨a, ha⟩ := List.dropWhile_suffix (l := l) isSpaceB
  obtain ⟨u, hu⟩ := List.dropWhile_suffix (l := (l.dropWhile isSpaceB).reverse) isSpaceB
  refine ⟨a, u.reverse, ?_, ?_⟩
  · have : (l.dropWhile isSpaceB).reverse.reverse =
        (u ++ ((l.dropWhile isSpaceB).reverse.dropWhile isSpaceB)).reverse := by
      rw [hu]
    rw [List.reverse_reverse, List.reverse_append] at this
    rw [this, pyStrip]
  · have h2 : l.dropWhile isSpaceB = pyStrip l ++ u.reverse := by
      have : (l.dropWhile isSpaceB).reverse.reverse =
          (u ++ ((l.dropWhile isSpaceB).reverse.dropWhile isSpaceB)).reverse := by
        rw [hu]
      rw [List.reverse_reverse, List.reverse_append] at this
      rw [this, pyStrip]
    conv_lhs => rw [← ha]
    rw [h2, List.append_assoc]

theorem clean_text_unfold (s : String) :
    clean_text s =
      if s = "" then "N/A"
      else if pyUpperL (s.data.filter (fun c => !isSpaceB c)) = "NA".data then "N/A"
      else if (pyStrip (wsCollapse (colonSub ((bsGetText s.data).filter isKeptB)))).isEmpty
        then "N/A"
        else ⟨pyStrip (wsCollapse (colonSub ((bsGetText s.data).filter isKeptB)))⟩ := rfl

/-- C6 counterexample: `clean_text` is not idempotent.  `clean_text ""` is
the sentinel `"N/A"`, and running the normaliser again turns the sentinel
into `"NA"` (the `/` is removed by the character filter), so
`clean_text (clean_text "") ≠ clean_text ""`. -/
theorem c6_counterexample :
    clean_text (clean_text "") ≠ clean_text "" := by
  have h1 : clean_text "" = "N/A" := rfl
  have h2 : clean_text "N/A" = "NA" := by
    simp [clean_text, bsGetText, colonSub, wsCollapse, pyStrip, isKeptB, isSpaceB, pyUpperL]
  rw [h1, h2]
  decide

/-- C6 (amended): `clean_text` is idempotent on every input whose
normalisation escapes the `"N/A"` sentinel, provided the normalised output
does not itself collapse to `NA` under the whitespace-stripped upper-case
probe; the unconditional idempotence claim fails because the sentinel
`"N/A"` is not a fixed point. -/
theorem c6_idempotence (x : String)
    (h1 : clean_text x ≠ "N/A")
    (h2 : pyUpperL ((clean_text x).data.filter (fun c => !isSpaceB c)) ≠ "NA".data) :
    clean_text (clean_text x) = clean_text x := by
  have hx : ¬ (x = "") := by
    intro h
    apply h1
    rw [h]
    rfl
  set t4 := pyStrip (wsCollapse (colonSub ((bsGetText x.data).filter isKeptB))) with ht4
  have hun : clean_text x =
      if x = "" then "N/A"
      else if pyUpperL (x.data.filter (fun c => !isSpaceB c)) = "NA".data then "N/A"
      else if t4.isEmpty then "N/A" else ⟨t4⟩ := by
    rw [ht4]
    exact clean_text_unfold x
  have hprobe : ¬ (pyUpperL (x.data.filter (fun c => !isSpaceB c)) = "NA".data) := by
    intro h
    apply h1
    rw [hun, if_neg hx, if_pos h]
  have hemp : ¬ (t4.isEmpty = true) := by
    intro h
    apply h1
    rw [hun, if_neg hx, if_neg hprobe, if_pos h]
  have hy : clean_text x = ⟨t4⟩ := by
    rw [hun, if_neg hx, if_neg hprobe, if_neg hemp]
  have hkept : ∀ c ∈ t4, isKeptB c = true := by
    intro c hc
    have hc1 := mem_pyStrip (ht4 ▸ hc)
    rcases mem_wsCollapse hc1 with rfl | ⟨hc2, _⟩
    · decide
    · exact List.of_mem_filter (mem_colonSub hc2)
  have honly : ∀ c ∈ t4, isSpaceB c = true → c = ' ' := by
    intro c hc hs
    have hc1 := mem_pyStrip (ht4 ▸ hc)
    rcases mem_wsCollapse hc1 with rfl | ⟨_, hns⟩
    · rfl
    · rw [hs] at hns
      exact absurd hns (by simp)
  have hrun : noWsRun t4 = true := by
    obtain ⟨a, b, _, hdec⟩ :=
      pyStrip_decomp (wsCollapse (colonSub ((bsGetText x.data).filter isKeptB)))
    have h0 : noWsRun (a ++ (t4 ++ b)) = true := by
      rw [← List.append_assoc, ht4, ← hdec]
      exact noWsRun_wsCollapse
    exact noWsRun_append_right (noWsRun_append_left h0)
  have hstrip : pyStrip t4 = t4 := by
    rw [ht4]
    exact pyStrip_idem _
  have hne : t4 ≠ [] := by
    intro h
    apply hemp
    rw [h]
    rfl
  rw [hy]
  rw [hy] at h2
  have hsne : ¬ ((⟨t4⟩ : String) = "") := by
    intro h
    exact hne (by simpa using congrArg String.data h)
  have hb : bsGetText t4 = t4 := bsGetText_id (fun c hc hlt => by
    subst hlt
    exact absurd (hkept '<' hc) (by decide))
  have hf : t4.filter isKeptB = t4 := List.filter_eq_self.mpr hkept
  have hcs : colonSub t4 = t4 := colonSub_id (fun c hc hcol => by
    subst hcol
    exact absurd (hkept ':' hc) (by decide))
  have hwc : wsCollapse t4 = t4 := wsCollapse_eq_self hrun honly
  have hchain :
      pyStrip (wsCollapse (colonSub ((bsGetText (⟨t4⟩ : String).data).filter isKeptB))) = t4 := by
    show pyStrip (wsCollapse (colonSub ((bsGetText t4).filter isKeptB))) = t4
    rw [hb, hf, hcs, hwc, hstrip]
  rw [clean_text_unfold ⟨t4⟩, if_neg hsne, if_neg h2, hchain, if_neg hemp]

/-- C6 witness: the amended idempotence applied at `"abc"`, whose
normalisation is `"abc"` itself. -/
theorem c6_witness :
    clean_text "abc" ≠ "N/A" ∧
    pyUpperL ((clean_text "abc").data.filter (fun c => !isSpaceB c)) ≠ "NA".data ∧
    clean_text (clean_text "abc") = clean_text "abc" := by
  have he : clean_text "abc" = "abc" := by
    simp [clean_text, bsGetText, colonSub, wsCollapse, pyStrip, isKeptB, isSpaceB, pyUpperL]
  refine ⟨?_, ?_, ?_⟩
  · rw [he]
    decide
  · rw [he]
    decide
  · exact c6_idempotence "abc" (by rw [he]; decide) (by rw [he]; decide)
